import Mathlib

/-!
Formal model of the x86-64 virtual address-space manager of
`src/kernel/src/arch/x86_64/vspace.rs`: the four-level page-table data
model, the recursive multi-granularity mapper `map_generic`, the
side-effect-free translation walk `resolve_addr`, and the frame-list
mapping operations `map_frame` / `map_frames`.

The page-table graph is modelled as a tree (the spec notes the semantics
are pointer-free): a non-leaf entry holds the child table it references
directly instead of the child's physical address.  The injected
`PhysicalPageProvider` is modelled as always yielding fresh zeroed frames
(the source calls `.expect("Allocation must work")`, so a failed
allocation is a panic, and a fresh frame is zeroed before linking).
Machine integers are modelled as `Nat`; addresses are meaningful below
`2^52` (the architectural physical-address width; stored addresses are
not re-masked, so theorems that read addresses back restrict to that
range).  A Rust panic (failed `assert!` / `panic!`) is modelled as the
result `Option.none`; a normal return is `Option.some`.
-/

namespace VSpaceModel

/-- 4 KiB base-page size (`BASE_PAGE_SIZE`). -/
abbrev BASE_PAGE_SIZE : Nat := 4096

/-- 2 MiB large-page size (`LARGE_PAGE_SIZE`). -/
abbrev LARGE_PAGE_SIZE : Nat := 2097152

/-- 1 GiB huge-page size (`HUGE_PAGE_SIZE`). -/
abbrev HUGE_PAGE_SIZE : Nat := 1073741824

/-- Bytes covered by one PML4 slot (`PML4_SLOT_SIZE` = 2^39). -/
abbrev PML4_SLOT_SIZE : Nat := 549755813888

/-- Level-4 index of a virtual address: bits [39,48). -/
def pml4Index (v : Nat) : Nat := v / PML4_SLOT_SIZE % 512

/-- Level-3 index of a virtual address: bits [30,39). -/
def pdptIndex (v : Nat) : Nat := v / HUGE_PAGE_SIZE % 512

/-- Level-2 index of a virtual address: bits [21,30). -/
def pdIndex (v : Nat) : Nat := v / LARGE_PAGE_SIZE % 512

/-- Level-1 index of a virtual address: bits [12,21). -/
def ptIndex (v : Nat) : Nat := v / BASE_PAGE_SIZE % 512

/-- Offset of an address within a 1 GiB page (`huge_page_offset`). -/
def hugePageOffset (v : Nat) : Nat := v % HUGE_PAGE_SIZE

/-- Offset of an address within a 2 MiB page (`large_page_offset`). -/
def largePageOffset (v : Nat) : Nat := v % LARGE_PAGE_SIZE

/-- Offset of an address within a 4 KiB page (`base_page_offset`). -/
def basePageOffset (v : Nat) : Nat := v % BASE_PAGE_SIZE

/-- Permission bits of a page-table entry beyond Present/PS: writable
(RW), user-accessible (US) and no-execute (XD). -/
structure Rights where
  rw : Bool
  us : Bool
  xd : Bool
deriving DecidableEq, Repr

/-- Modelled from the spec: the closed `MapAction` permission enum of
`crate::memory::vspace` (its defining file is outside the given sources;
the variant list also appears in the property-test fixtures). -/
inductive MapAction where
  | none
  | readUser
  | readKernel
  | readWriteUser
  | readWriteKernel
  | readExecuteUser
  | readExecuteKernel
  | readWriteExecuteUser
  | readWriteExecuteKernel
deriving DecidableEq, Repr

/-- Modelled from the spec: the projection of `MapAction` onto per-level
permission bits (`to_pt_rights` / `to_pd_rights` / `to_pdpt_rights`,
defined outside the given sources): W is set iff the name contains
`Write`, US iff the name ends in `User`, NX iff the name does not
contain `Execute`. -/
def MapAction.toRights : MapAction → Rights
  | .none => ⟨false, false, true⟩
  | .readUser => ⟨false, true, true⟩
  | .readKernel => ⟨false, false, true⟩
  | .readWriteUser => ⟨true, true, true⟩
  | .readWriteKernel => ⟨true, false, true⟩
  | .readExecuteUser => ⟨false, true, false⟩
  | .readExecuteKernel => ⟨false, false, false⟩
  | .readWriteExecuteUser => ⟨true, true, false⟩
  | .readWriteExecuteKernel => ⟨true, false, false⟩

/-- The flag combination `P|RW|US` given to every intermediate
(table-pointer) entry by `new_pt` / `new_pd` / `new_pdpt`. -/
def intermediateRights : Rights := ⟨true, true, false⟩

/-- A level-1 (`PT`) entry: non-present, or a present 4 KiB leaf with
its permission bits and physical address. -/
inductive PTEntry where
  | nonPresent
  | page (rights : Rights) (addr : Nat)
deriving DecidableEq, Repr

/-- A level-2 (`PD`) entry: non-present, a 2 MiB leaf (`PS` set), or a
pointer to a level-1 table (`PS` clear). -/
inductive PDEntry where
  | nonPresent
  | page (rights : Rights) (addr : Nat)
  | table (rights : Rights) (pt : Nat → PTEntry)

/-- A level-3 (`PDPT`) entry: non-present, a 1 GiB leaf (`PS` set), or a
pointer to a level-2 table (`PS` clear). -/
inductive PDPTEntry where
  | nonPresent
  | page (rights : Rights) (addr : Nat)
  | table (rights : Rights) (pd : Nat → PDEntry)

/-- A level-4 (`PML4`) entry: non-present or a pointer to a level-3
table (hardware level-4 entries have no PS bit). -/
inductive PML4Entry where
  | nonPresent
  | table (rights : Rights) (pdpt : Nat → PDPTEntry)

def PTEntry.isPresent : PTEntry → Bool
  | .nonPresent => false
  | .page _ _ => true

def PDEntry.isPresent : PDEntry → Bool
  | .nonPresent => false
  | _ => true

def PDEntry.isPage : PDEntry → Bool
  | .page _ _ => true
  | _ => false

/-- View a level-2 entry as a 2 MiB leaf, if it is one. -/
def PDEntry.asPage : PDEntry → Option (Rights × Nat)
  | .page r a => Option.some (r, a)
  | _ => Option.none

def PDPTEntry.isPresent : PDPTEntry → Bool
  | .nonPresent => false
  | _ => true

def PDPTEntry.isPage : PDPTEntry → Bool
  | .page _ _ => true
  | _ => false

/-- View a level-3 entry as a 1 GiB leaf, if it is one. -/
def PDPTEntry.asPage : PDPTEntry → Option (Rights × Nat)
  | .page r a => Option.some (r, a)
  | _ => Option.none

def PML4Entry.isPresent : PML4Entry → Bool
  | .nonPresent => false
  | _ => true

/-- An address space: the pinned level-4 root table. -/
structure VSpace where
  pml4 : Nat → PML4Entry

/-- `VSpace::new`: an empty root table, all 512 entries non-present. -/
def VSpace.new : VSpace := ⟨fun _ => PML4Entry.nonPresent⟩

/-- Point update of a table (write of one entry slot). -/
def updf {α : Type} (t : Nat → α) (i : Nat) (e : α) : Nat → α :=
  fun j => if j = i then e else t j

/-- Modelled from the spec: error kinds of `AddressSpaceError`
(defined outside the given sources); the mapper's `Result` type carries
it but the current source never returns an error value. -/
inductive AddressSpaceError where
  | invalidArgument
  | alreadyMapped
  | frameAllocationFailed
  | notMapped
deriving DecidableEq, Repr

/-- `VSpace::resolve_addr`: the side-effect-free translation walk. -/
def resolve_addr (vs : VSpace) (addr : Nat) : Option Nat :=
  match vs.pml4 (pml4Index addr) with
  | PML4Entry.nonPresent => Option.none
  | PML4Entry.table _ pdpt =>
    match pdpt (pdptIndex addr) with
    | PDPTEntry.nonPresent => Option.none
    | PDPTEntry.page _ a => Option.some (a + hugePageOffset addr)
    | PDPTEntry.table _ pd =>
      match pd (pdIndex addr) with
      | PDEntry.nonPresent => Option.none
      | PDEntry.page _ a => Option.some (a + largePageOffset addr)
      | PDEntry.table _ pt =>
        match pt (ptIndex addr) with
        | PTEntry.nonPresent => Option.none
        | PTEntry.page _ a => Option.some (a + basePageOffset addr)

/-- The 1 GiB while-loop of `map_generic`, with an explicit iteration
budget: the budget starts at `512 - idx` and the loop condition keeps
`idx < 512`, so the budget never runs out before the condition fails.
Each iteration asserts the slot non-present (panic otherwise), installs
a 1 GiB leaf `P|PS|rights` and advances.  Returns the updated table and
the number of bytes mapped. -/
def hugeLoopF : Nat → (Nat → PDPTEntry) → Nat → Rights → Nat → Nat → Nat →
    Option ((Nat → PDPTEntry) × Nat)
  | 0, pdpt, _, _, _, _, mapped => Option.some (pdpt, mapped)
  | gas + 1, pdpt, pbase, r, psize, idx, mapped =>
    if mapped < psize ∧ HUGE_PAGE_SIZE ≤ psize - mapped ∧ idx < 512 then
      if (pdpt idx).isPresent then Option.none
      else
        hugeLoopF gas (updf pdpt idx (PDPTEntry.page r (pbase + mapped)))
          pbase r psize (idx + 1) (mapped + HUGE_PAGE_SIZE)
    else Option.some (pdpt, mapped)

/-- The 1 GiB mapping loop of `map_generic`, starting with `mapped = 0`. -/
def hugeLoop (pdpt : Nat → PDPTEntry) (pbase : Nat) (r : Rights) (psize idx : Nat) :
    Option ((Nat → PDPTEntry) × Nat) :=
  hugeLoopF (512 - idx) pdpt pbase r psize idx 0

/-- The 2 MiB while-loop of `map_generic` (same budget device): panics if
a touched slot is present, else installs a 2 MiB leaf `P|PS|rights`. -/
def largeLoopF : Nat → (Nat → PDEntry) → Nat → Rights → Nat → Nat → Nat →
    Option ((Nat → PDEntry) × Nat)
  | 0, pd, _, _, _, _, mapped => Option.some (pd, mapped)
  | gas + 1, pd, pbase, r, psize, idx, mapped =>
    if mapped < psize ∧ LARGE_PAGE_SIZE ≤ psize - mapped ∧ idx < 512 then
      if (pd idx).isPresent then Option.none
      else
        largeLoopF gas (updf pd idx (PDEntry.page r (pbase + mapped)))
          pbase r psize (idx + 1) (mapped + LARGE_PAGE_SIZE)
    else Option.some (pd, mapped)

/-- The 2 MiB mapping loop of `map_generic`, starting with `mapped = 0`. -/
def largeLoop (pd : Nat → PDEntry) (pbase : Nat) (r : Rights) (psize idx : Nat) :
    Option ((Nat → PDEntry) × Nat) :=
  largeLoopF (512 - idx) pd pbase r psize idx 0

/-- The 4 KiB while-loop of `map_generic` (same budget device): a slot
that is already present is silently skipped (the source asserts the
entry is present, a no-op), otherwise a 4 KiB leaf `P|rights` is
installed; `mapped` advances either way. -/
def ptLoopF : Nat → (Nat → PTEntry) → Nat → Rights → Nat → Nat → Nat →
    (Nat → PTEntry) × Nat
  | 0, pt, _, _, _, _, mapped => (pt, mapped)
  | gas + 1, pt, pbase, r, psize, idx, mapped =>
    if mapped < psize ∧ idx < 512 then
      let ptA := if (pt idx).isPresent then pt
                 else updf pt idx (PTEntry.page r (pbase + mapped))
      ptLoopF gas ptA pbase r psize (idx + 1) (mapped + BASE_PAGE_SIZE)
    else (pt, mapped)

/-- The 4 KiB mapping loop of `map_generic`, starting with `mapped = 0`. -/
def ptLoop (pt : Nat → PTEntry) (pbase : Nat) (r : Rights) (psize idx : Nat) :
    (Nat → PTEntry) × Nat :=
  ptLoopF (512 - idx) pt pbase r psize idx 0

/-- Result of a map call: the mutated address space, the `Result` value
the Rust function returned, and the number of `map_generic` activations
in the self-recursion chain (1 for a call that does not recurse). -/
abbrev MapOut := VSpace × Except AddressSpaceError Unit × Nat

/-- One activation of `map_generic`, parameterised by the function used
for the self-recursive calls.  Follows `VSpace::map_generic` line by
line: the four precondition assertions; lazy creation of the PDPT, PD
and PT tables with flags `P|RW|US` (`new_pdpt` / `new_pd` / `new_pt`);
the 1 GiB fast path guarded by slot-alignment of `vbase`, 1 GiB
alignment of `pbase` and remaining size; the corresponding 2 MiB path;
the 4 KiB loop; and the tail recursion whenever bytes remain.  The
assertions that a present PDPT/PD entry is not a `PS` leaf are the
`Option.none` arms of the matches. -/
def map_generic_body (recur : VSpace → Nat → Nat → Nat → MapAction → Option MapOut)
    (vs : VSpace) (vbase pbase psize : Nat) (rights : MapAction) : Option MapOut :=
  if pbase % BASE_PAGE_SIZE ≠ 0 then Option.none
  else if psize % BASE_PAGE_SIZE ≠ 0 then Option.none
  else if vbase % BASE_PAGE_SIZE ≠ 0 then Option.none
  else if rights = MapAction.none then Option.none
  else
    let i4 := pml4Index vbase
    let pml4A := if (vs.pml4 i4).isPresent then vs.pml4
                 else updf vs.pml4 i4
                   (PML4Entry.table intermediateRights (fun _ => PDPTEntry.nonPresent))
    match pml4A i4 with
    | PML4Entry.nonPresent => Option.none
    | PML4Entry.table r4 pdpt =>
      let i3 := pdptIndex vbase
      if (pdpt i3).isPresent = false
          ∧ vbase = PML4_SLOT_SIZE * i4 + HUGE_PAGE_SIZE * i3
          ∧ pbase % HUGE_PAGE_SIZE = 0 ∧ HUGE_PAGE_SIZE ≤ psize then
        match hugeLoop pdpt pbase rights.toRights psize i3 with
        | Option.none => Option.none
        | Option.some (pdpt2, mapped) =>
          let vs2 : VSpace := ⟨updf pml4A i4 (PML4Entry.table r4 pdpt2)⟩
          if mapped < psize then
            match recur vs2 (vbase + mapped) (pbase + mapped) (psize - mapped) rights with
            | Option.none => Option.none
            | Option.some (vs3, res, d) => Option.some (vs3, res, d + 1)
          else Option.some (vs2, Except.ok (), 1)
      else
        let pdptA := if (pdpt i3).isPresent then pdpt
                     else updf pdpt i3
                       (PDPTEntry.table intermediateRights (fun _ => PDEntry.nonPresent))
        match pdptA i3 with
        | PDPTEntry.nonPresent => Option.none
        | PDPTEntry.page _ _ => Option.none
        | PDPTEntry.table r3 pd =>
          let i2 := pdIndex vbase
          if (pd i2).isPresent = false
              ∧ vbase = PML4_SLOT_SIZE * i4 + HUGE_PAGE_SIZE * i3 + LARGE_PAGE_SIZE * i2
              ∧ pbase % LARGE_PAGE_SIZE = 0 ∧ LARGE_PAGE_SIZE ≤ psize then
            match largeLoop pd pbase rights.toRights psize i2 with
            | Option.none => Option.none
            | Option.some (pd2, mapped) =>
              let vs2 : VSpace :=
                ⟨updf pml4A i4 (PML4Entry.table r4 (updf pdptA i3 (PDPTEntry.table r3 pd2)))⟩
              if mapped < psize then
                match recur vs2 (vbase + mapped) (pbase + mapped) (psize - mapped) rights with
                | Option.none => Option.none
                | Option.some (vs3, res, d) => Option.some (vs3, res, d + 1)
              else Option.some (vs2, Except.ok (), 1)
          else
            let pdA := if (pd i2).isPresent then pd
                       else updf pd i2
                         (PDEntry.table intermediateRights (fun _ => PTEntry.nonPresent))
            match pdA i2 with
            | PDEntry.nonPresent => Option.none
            | PDEntry.page _ _ => Option.none
            | PDEntry.table r2 pt =>
              let i1 := ptIndex vbase
              let res := ptLoop pt pbase rights.toRights psize i1
              let vs2 : VSpace :=
                ⟨updf pml4A i4 (PML4Entry.table r4 (updf pdptA i3
                  (PDPTEntry.table r3 (updf pdA i2 (PDEntry.table r2 res.1)))))⟩
              if res.2 < psize then
                match recur vs2 (vbase + res.2) (pbase + res.2) (psize - res.2) rights with
                | Option.none => Option.none
                | Option.some (vs3, r, d) => Option.some (vs3, r, d + 1)
              else Option.some (vs2, Except.ok (), 1)

/-- `map_generic` with an explicit recursion budget.  Every self-call
strictly shrinks `psize` by at least one 4 KiB page, so a budget of
`psize + 1` always suffices. -/
def mapGenericF : Nat → VSpace → Nat → Nat → Nat → MapAction → Option MapOut
  | 0, _, _, _, _, _ => Option.none
  | fuel + 1, vs, vbase, pbase, psize, rights =>
    map_generic_body (mapGenericF fuel) vs vbase pbase psize rights

/-- `VSpace::map_generic`.  `Option.none` is a panic (failed assertion);
`Option.some (vs, res, d)` is a normal return with post-state `vs`,
returned `Result` `res`, and `d` activations in the recursion chain. -/
def map_generic (vs : VSpace) (vbase pbase psize : Nat) (rights : MapAction) :
    Option MapOut :=
  mapGenericF (psize + 1) vs vbase pbase psize rights

/-- Modelled from the spec: a provider-issued physical `Frame` with its
base address and size in bytes (type defined outside the given sources). -/
structure Frame where
  base : Nat
  size : Nat
deriving DecidableEq, Repr

/-- `VSpace::map_frame`: maps one frame via `map_generic`, discarding
the inner `Result` value, and returns `Ok(())`. -/
def map_frame (vs : VSpace) (base : Nat) (frame : Frame) (action : MapAction) :
    Option (VSpace × Except AddressSpaceError Unit) :=
  match map_generic vs base frame.base frame.size action with
  | Option.none => Option.none
  | Option.some (vs2, _, _) => Option.some (vs2, Except.ok ())

/-- The frame-walking loop of `map_frames`: each frame is mapped at the
current base, which then advances by that frame's size; an error from
`map_frame` would propagate early (the `?` operator). -/
def map_frames_go (vs : VSpace) (base : Nat) :
    List (Frame × MapAction) → Option (VSpace × Except AddressSpaceError Unit)
  | [] => Option.some (vs, Except.ok ())
  | (f, a) :: rest =>
    match map_frame vs base f a with
    | Option.none => Option.none
    | Option.some (vs2, Except.ok _) => map_frames_go vs2 (base + f.size) rest
    | Option.some (vs2, Except.error e) => Option.some (vs2, Except.error e)

/-- `VSpace::map_frames`: asserts the list non-empty and the base
aligned to the first frame's size (`base % 0` is itself a Rust panic),
then maps the frames contiguously. -/
def map_frames (vs : VSpace) (base : Nat) (frames : List (Frame × MapAction)) :
    Option (VSpace × Except AddressSpaceError Unit) :=
  match frames with
  | [] => Option.none
  | (f0, _) :: _ =>
    if f0.size = 0 then Option.none
    else if base % f0.size ≠ 0 then Option.none
    else map_frames_go vs base frames

/-- The level-3 entry on the translation path of `a` (non-present when
the level-4 entry is non-present). -/
def l3entryAt (vs : VSpace) (a : Nat) : PDPTEntry :=
  match vs.pml4 (pml4Index a) with
  | PML4Entry.nonPresent => PDPTEntry.nonPresent
  | PML4Entry.table _ pdpt => pdpt (pdptIndex a)

/-- The level-2 entry on the translation path of `a` (non-present when
the path stops earlier). -/
def l2entryAt (vs : VSpace) (a : Nat) : PDEntry :=
  match l3entryAt vs a with
  | PDPTEntry.table _ pd => pd (pdIndex a)
  | _ => PDEntry.nonPresent

/-- The level-1 entry on the translation path of `a` (non-present when
the path stops earlier). -/
def l1entryAt (vs : VSpace) (a : Nat) : PTEntry :=
  match l2entryAt vs a with
  | PDEntry.table _ pt => pt (ptIndex a)
  | _ => PTEntry.nonPresent

/-- The remainder of the translation walk below a given level-3 entry. -/
def resolveFrom3 (e : PDPTEntry) (addr : Nat) : Option Nat :=
  match e with
  | PDPTEntry.nonPresent => Option.none
  | PDPTEntry.page _ a => Option.some (a + hugePageOffset addr)
  | PDPTEntry.table _ pd =>
    match pd (pdIndex addr) with
    | PDEntry.nonPresent => Option.none
    | PDEntry.page _ a => Option.some (a + largePageOffset addr)
    | PDEntry.table _ pt =>
      match pt (ptIndex addr) with
      | PTEntry.nonPresent => Option.none
      | PTEntry.page _ a => Option.some (a + basePageOffset addr)

/-- The remainder of the translation walk below a given level-2 entry. -/
def resolveFrom2 (e : PDEntry) (addr : Nat) : Option Nat :=
  match e with
  | PDEntry.nonPresent => Option.none
  | PDEntry.page _ a => Option.some (a + largePageOffset addr)
  | PDEntry.table _ pt =>
    match pt (ptIndex addr) with
    | PTEntry.nonPresent => Option.none
    | PTEntry.page _ a => Option.some (a + basePageOffset addr)

/-- Does a level-2 entry respect the intermediate-flag discipline
(`P|RW|US` on every table pointer)? -/
def PDEntry.goodB : PDEntry → Bool
  | PDEntry.table r _ => decide (r = intermediateRights)
  | _ => true

/-- All 512 slots of a level-2 table respect the discipline. -/
def pdGoodB (pd : Nat → PDEntry) : Bool :=
  (List.range 512).all fun i => (pd i).goodB

/-- Does a level-3 entry (and everything below it) respect the
intermediate-flag discipline? -/
def PDPTEntry.goodB : PDPTEntry → Bool
  | PDPTEntry.table r pd => decide (r = intermediateRights) && pdGoodB pd
  | _ => true

/-- All 512 slots of a level-3 table respect the discipline. -/
def pdptGoodB (pdpt : Nat → PDPTEntry) : Bool :=
  (List.range 512).all fun i => (pdpt i).goodB

/-- Does a level-4 entry (and everything below it) respect the
intermediate-flag discipline? -/
def PML4Entry.goodB : PML4Entry → Bool
  | PML4Entry.table r pdpt => decide (r = intermediateRights) && pdptGoodB pdpt
  | _ => true

/-- Every non-leaf entry reachable in the address space carries exactly
the flags `P|RW|US`. -/
def vspaceGoodB (vs : VSpace) : Bool :=
  (List.range 512).all fun i => (vs.pml4 i).goodB

deriving instance DecidableEq for Except

/-! ### Basic lemmas -/

@[simp] lemma updf_same {α : Type} (t : Nat → α) (i : Nat) (e : α) :
    updf t i e i = e := by
  simp [updf]

lemma updf_ne {α : Type} (t : Nat → α) (i j : Nat) (e : α) (h : j ≠ i) :
    updf t i e j = t j := by
  simp [updf, h]

@[simp] lemma PTEntry_isPresent_nonPresent : PTEntry.nonPresent.isPresent = false := rfl

@[simp] lemma PTEntry_isPresent_page (r : Rights) (a : Nat) :
    (PTEntry.page r a).isPresent = true := rfl

@[simp] lemma PDEntry_isPresent_nonPresent : PDEntry.nonPresent.isPresent = false := rfl

@[simp] lemma PDEntry_isPresent_page (r : Rights) (a : Nat) :
    (PDEntry.page r a).isPresent = true := rfl

@[simp] lemma PDEntry_isPresent_table (r : Rights) (t : Nat → PTEntry) :
    (PDEntry.table r t).isPresent = true := rfl

@[simp] lemma PDEntry_isPage_nonPresent : PDEntry.nonPresent.isPage = false := rfl

@[simp] lemma PDEntry_isPage_page (r : Rights) (a : Nat) :
    (PDEntry.page r a).isPage = true := rfl

@[simp] lemma PDEntry_isPage_table (r : Rights) (t : Nat → PTEntry) :
    (PDEntry.table r t).isPage = false := rfl

@[simp] lemma PDPTEntry_isPresent_nonPresent : PDPTEntry.nonPresent.isPresent = false := rfl

@[simp] lemma PDPTEntry_isPresent_page (r : Rights) (a : Nat) :
    (PDPTEntry.page r a).isPresent = true := rfl

@[simp] lemma PDPTEntry_isPresent_table (r : Rights) (t : Nat → PDEntry) :
    (PDPTEntry.table r t).isPresent = true := rfl

@[simp] lemma PDPTEntry_isPage_nonPresent : PDPTEntry.nonPresent.isPage = false := rfl

@[simp] lemma PDPTEntry_isPage_page (r : Rights) (a : Nat) :
    (PDPTEntry.page r a).isPage = true := rfl

@[simp] lemma PDPTEntry_isPage_table (r : Rights) (t : Nat → PDEntry) :
    (PDPTEntry.table r t).isPage = false := rfl

@[simp] lemma PML4Entry_isPresent_nonPresent : PML4Entry.nonPresent.isPresent = false := rfl

@[simp] lemma PML4Entry_isPresent_table (r : Rights) (t : Nat → PDPTEntry) :
    (PML4Entry.table r t).isPresent = true := rfl

lemma PTEntry_not_present_eq (e : PTEntry) (h : e.isPresent = false) :
    e = PTEntry.nonPresent := by
  cases e <;> simp_all [PTEntry.isPresent]

lemma PDEntry_not_present_eq (e : PDEntry) (h : e.isPresent = false) :
    e = PDEntry.nonPresent := by
  cases e <;> simp_all [PDEntry.isPresent]

lemma PDPTEntry_not_present_eq (e : PDPTEntry) (h : e.isPresent = false) :
    e = PDPTEntry.nonPresent := by
  cases e <;> simp_all [PDPTEntry.isPresent]

/-- The translation walk factors through the level-3 entry on the path. -/
lemma resolve_eq_l3 (vs : VSpace) (a : Nat) :
    resolve_addr vs a = resolveFrom3 (l3entryAt vs a) a := by
  unfold resolve_addr resolveFrom3 l3entryAt
  cases vs.pml4 (pml4Index a) <;> rfl

/-- The walk below a level-3 table entry factors through its level-2
slot. -/
lemma resolveFrom3_table (r : Rights) (pd : Nat → PDEntry) (a : Nat) :
    resolveFrom3 (PDPTEntry.table r pd) a = resolveFrom2 (pd (pdIndex a)) a := by
  unfold resolveFrom3 resolveFrom2
  cases h : pd (pdIndex a) <;> simp [h]

/-! ### Loop characterization -/

/-- Full characterization of a successful run of the 1 GiB loop: it
installs `min ((psize-mapped)/1GiB) (512-idx)` consecutive huge leaves,
each slot having been non-present, and touches nothing else. -/
lemma hugeLoopF_spec : ∀ (gas : Nat) (pdpt : Nat → PDPTEntry) (pbase : Nat) (r : Rights)
    (psize idx mapped : Nat) (pdpt' : Nat → PDPTEntry) (mapped' : Nat),
    512 ≤ gas + idx →
    hugeLoopF gas pdpt pbase r psize idx mapped = Option.some (pdpt', mapped') →
    mapped' = mapped + min ((psize - mapped) / HUGE_PAGE_SIZE) (512 - idx) * HUGE_PAGE_SIZE ∧
    (∀ j, idx ≤ j → j < idx + min ((psize - mapped) / HUGE_PAGE_SIZE) (512 - idx) →
      (pdpt j).isPresent = false ∧
      pdpt' j = PDPTEntry.page r (pbase + (mapped + (j - idx) * HUGE_PAGE_SIZE))) ∧
    (∀ j, j < idx ∨ idx + min ((psize - mapped) / HUGE_PAGE_SIZE) (512 - idx) ≤ j →
      pdpt' j = pdpt j) := by
  intro gas
  induction gas with
  | zero =>
    intro pdpt pbase r psize idx mapped pdpt' mapped' hgas hrun
    simp only [hugeLoopF, Option.some.injEq, Prod.mk.injEq] at hrun
    obtain ⟨h1, h2⟩ := hrun
    have hidx : 512 - idx = 0 := by omega
    subst h1 h2
    refine ⟨by simp [hidx], ?_, fun j hj => rfl⟩
    intro j hj1 hj2
    exact absurd hj2 (by omega)
  | succ gas ih =>
    intro pdpt pbase r psize idx mapped pdpt' mapped' hgas hrun
    simp only [hugeLoopF] at hrun
    by_cases hc : mapped < psize ∧ HUGE_PAGE_SIZE ≤ psize - mapped ∧ idx < 512
    · rw [if_pos hc] at hrun
      by_cases hp : (pdpt idx).isPresent
      · rw [if_pos hp] at hrun; exact absurd hrun (by simp)
      · rw [if_neg hp] at hrun
        have ih' := ih _ _ _ _ _ _ _ _ (by omega) hrun
        simp only [show HUGE_PAGE_SIZE = 1073741824 from rfl] at ih' hc ⊢
        have hcnt : min ((psize - mapped) / 1073741824) (512 - idx) =
            min ((psize - (mapped + 1073741824)) / 1073741824) (512 - (idx + 1)) + 1 := by
          omega
        obtain ⟨ihm, ihin, ihout⟩ := ih'
        rw [hcnt]
        refine ⟨by omega, ?_, ?_⟩
        · intro j hj1 hj2
          rcases Nat.eq_or_lt_of_le hj1 with hj | hj
          · subst hj
            refine ⟨by simpa using hp, ?_⟩
            have hout0 := ihout idx (Or.inl (by omega))
            rw [hout0, updf_same]
            congr 2
            omega
          · have hin := ihin j (by omega) (by omega)
            obtain ⟨hpres, hval⟩ := hin
            constructor
            · rw [updf_ne _ _ _ _ (by omega)] at hpres; exact hpres
            · rw [hval]
              congr 2
              omega
        · intro j hj
          have hout := ihout j (by omega)
          rw [hout, updf_ne _ _ _ _ (by omega)]
    · rw [if_neg hc] at hrun
      simp only [Option.some.injEq, Prod.mk.injEq] at hrun
      obtain ⟨h1, h2⟩ := hrun
      subst h1 h2
      simp only [show HUGE_PAGE_SIZE = 1073741824 from rfl] at hc ⊢
      have hcnt : min ((psize - mapped) / 1073741824) (512 - idx) = 0 := by
        omega
      refine ⟨by simp [hcnt], ?_, by intro j hj; trivial⟩
      intro j hj1 hj2
      rw [hcnt] at hj2
      exact absurd hj2 (by omega)

/-- Full characterization of a successful run of the 2 MiB loop. -/
lemma largeLoopF_spec : ∀ (gas : Nat) (pd : Nat → PDEntry) (pbase : Nat) (r : Rights)
    (psize idx mapped : Nat) (pd' : Nat → PDEntry) (mapped' : Nat),
    512 ≤ gas + idx →
    largeLoopF gas pd pbase r psize idx mapped = Option.some (pd', mapped') →
    mapped' = mapped + min ((psize - mapped) / LARGE_PAGE_SIZE) (512 - idx) * LARGE_PAGE_SIZE ∧
    (∀ j, idx ≤ j → j < idx + min ((psize - mapped) / LARGE_PAGE_SIZE) (512 - idx) →
      (pd j).isPresent = false ∧
      pd' j = PDEntry.page r (pbase + (mapped + (j - idx) * LARGE_PAGE_SIZE))) ∧
    (∀ j, j < idx ∨ idx + min ((psize - mapped) / LARGE_PAGE_SIZE) (512 - idx) ≤ j →
      pd' j = pd j) := by
  intro gas
  induction gas with
  | zero =>
    intro pd pbase r psize idx mapped pd' mapped' hgas hrun
    simp only [largeLoopF, Option.some.injEq, Prod.mk.injEq] at hrun
    obtain ⟨h1, h2⟩ := hrun
    have hidx : 512 - idx = 0 := by omega
    subst h1 h2
    refine ⟨by simp [hidx], ?_, fun j hj => rfl⟩
    intro j hj1 hj2
    exact absurd hj2 (by omega)
  | succ gas ih =>
    intro pd pbase r psize idx mapped pd' mapped' hgas hrun
    simp only [largeLoopF] at hrun
    by_cases hc : mapped < psize ∧ LARGE_PAGE_SIZE ≤ psize - mapped ∧ idx < 512
    · rw [if_pos hc] at hrun
      by_cases hp : (pd idx).isPresent
      · rw [if_pos hp] at hrun; exact absurd hrun (by simp)
      · rw [if_neg hp] at hrun
        have ih' := ih _ _ _ _ _ _ _ _ (by omega) hrun
        simp only [show LARGE_PAGE_SIZE = 2097152 from rfl] at ih' hc ⊢
        have hcnt : min ((psize - mapped) / 2097152) (512 - idx) =
            min ((psize - (mapped + 2097152)) / 2097152) (512 - (idx + 1)) + 1 := by
          omega
        obtain ⟨ihm, ihin, ihout⟩ := ih'
        rw [hcnt]
        refine ⟨by omega, ?_, ?_⟩
        · intro j hj1 hj2
          rcases Nat.eq_or_lt_of_le hj1 with hj | hj
          · subst hj
            refine ⟨by simpa using hp, ?_⟩
            have hout0 := ihout idx (Or.inl (by omega))
            rw [hout0, updf_same]
            congr 2
            omega
          · have hin := ihin j (by omega) (by omega)
            obtain ⟨hpres, hval⟩ := hin
            constructor
            · rw [updf_ne _ _ _ _ (by omega)] at hpres; exact hpres
            · rw [hval]
              congr 2
              omega
        · intro j hj
          have hout := ihout j (by omega)
          rw [hout, updf_ne _ _ _ _ (by omega)]
    · rw [if_neg hc] at hrun
      simp only [Option.some.injEq, Prod.mk.injEq] at hrun
      obtain ⟨h1, h2⟩ := hrun
      subst h1 h2
      simp only [show LARGE_PAGE_SIZE = 2097152 from rfl] at hc ⊢
      have hcnt : min ((psize - mapped) / 2097152) (512 - idx) = 0 := by
        omega
      refine ⟨by simp [hcnt], ?_, by intro j hj; trivial⟩
      intro j hj1 hj2
      rw [hcnt] at hj2
      exact absurd hj2 (by omega)

/-- Full characterization of the 4 KiB loop when every slot it will
visit is non-present (the skip branch is never taken): it installs
`min ((psize-mapped)/4KiB) (512-idx)` consecutive base-page leaves. -/
lemma ptLoopF_spec : ∀ (gas : Nat) (pt : Nat → PTEntry) (pbase : Nat) (r : Rights)
    (psize idx mapped : Nat) (pt' : Nat → PTEntry) (mapped' : Nat),
    512 ≤ gas + idx →
    mapped % BASE_PAGE_SIZE = 0 → psize % BASE_PAGE_SIZE = 0 →
    (∀ j, idx ≤ j → j < idx + min ((psize - mapped) / BASE_PAGE_SIZE) (512 - idx) →
      (pt j).isPresent = false) →
    ptLoopF gas pt pbase r psize idx mapped = (pt', mapped') →
    mapped' = mapped + min ((psize - mapped) / BASE_PAGE_SIZE) (512 - idx) * BASE_PAGE_SIZE ∧
    (∀ j, idx ≤ j → j < idx + min ((psize - mapped) / BASE_PAGE_SIZE) (512 - idx) →
      pt' j = PTEntry.page r (pbase + (mapped + (j - idx) * BASE_PAGE_SIZE))) ∧
    (∀ j, j < idx ∨ idx + min ((psize - mapped) / BASE_PAGE_SIZE) (512 - idx) ≤ j →
      pt' j = pt j) := by
  intro gas
  induction gas with
  | zero =>
    intro pt pbase r psize idx mapped pt' mapped' hgas hm hps hnp hrun
    simp only [ptLoopF, Prod.mk.injEq] at hrun
    obtain ⟨h1, h2⟩ := hrun
    have hidx : 512 - idx = 0 := by omega
    subst h1 h2
    refine ⟨by simp [hidx], ?_, fun j hj => rfl⟩
    intro j hj1 hj2
    exact absurd hj2 (by omega)
  | succ gas ih =>
    intro pt pbase r psize idx mapped pt' mapped' hgas hm hps hnp hrun
    simp only [ptLoopF] at hrun
    by_cases hc : mapped < psize ∧ idx < 512
    · rw [if_pos hc] at hrun
      simp only [show BASE_PAGE_SIZE = 4096 from rfl] at hm hps hnp hrun ⊢
      have hcnt : min ((psize - mapped) / 4096) (512 - idx) =
          min ((psize - (mapped + 4096)) / 4096) (512 - (idx + 1)) + 1 := by
        omega
      have hnp0 : (pt idx).isPresent = false := by
        refine hnp idx (le_refl idx) ?_
        omega
      rw [if_neg (by simp [hnp0])] at hrun
      have hnp' : ∀ j, idx + 1 ≤ j →
          j < idx + 1 + min ((psize - (mapped + 4096)) / 4096) (512 - (idx + 1)) →
          ((updf pt idx (PTEntry.page r (pbase + mapped))) j).isPresent = false := by
        intro j hj1 hj2
        rw [updf_ne _ _ _ _ (by omega)]
        exact hnp j (by omega) (by omega)
      have ih' := ih _ _ _ _ _ _ _ _ (by omega)
        (by show (mapped + 4096) % 4096 = 0; omega)
        (by show psize % 4096 = 0; omega) hnp' hrun
      simp only [show BASE_PAGE_SIZE = 4096 from rfl] at ih'
      obtain ⟨ihm, ihin, ihout⟩ := ih'
      rw [hcnt]
      refine ⟨by omega, ?_, ?_⟩
      · intro j hj1 hj2
        rcases Nat.eq_or_lt_of_le hj1 with hj | hj
        · subst hj
          have hout0 := ihout idx (Or.inl (by omega))
          rw [hout0, updf_same]
          congr 2
          omega
        · have hval := ihin j (by omega) (by omega)
          rw [hval]
          congr 2
          omega
      · intro j hj
        have hout := ihout j (by omega)
        rw [hout, updf_ne _ _ _ _ (by omega)]
    · rw [if_neg hc] at hrun
      simp only [Prod.mk.injEq] at hrun
      obtain ⟨h1, h2⟩ := hrun
      subst h1 h2
      simp only [show BASE_PAGE_SIZE = 4096 from rfl] at hm hps ⊢
      have hcnt : min ((psize - mapped) / 4096) (512 - idx) = 0 := by
        omega
      refine ⟨by simp [hcnt], ?_, by intro j hj; trivial⟩
      intro j hj1 hj2
      rw [hcnt] at hj2
      exact absurd hj2 (by omega)

/-- The 4 KiB loop never modifies a slot that is already present
(the already-mapped page is silently skipped and survives). -/
lemma ptLoopF_preserve : ∀ (gas : Nat) (pt : Nat → PTEntry) (pbase : Nat) (r : Rights)
    (psize idx mapped j : Nat),
    (pt j).isPresent = true →
    (ptLoopF gas pt pbase r psize idx mapped).1 j = pt j := by
  intro gas
  induction gas with
  | zero =>
    intro pt pbase r psize idx mapped j hj
    rfl
  | succ gas ih =>
    intro pt pbase r psize idx mapped j hj
    simp only [ptLoopF]
    by_cases hc : mapped < psize ∧ idx < 512
    · rw [if_pos hc]
      by_cases hp : (pt idx).isPresent
      · simp only [if_pos hp]
        exact ih _ _ _ _ _ _ _ hj
      · simp only [if_neg hp]
        have hne : j ≠ idx := by
          intro he
          rw [he] at hj
          rw [hj] at hp
          exact hp rfl
        have := ih (updf pt idx (PTEntry.page r (pbase + mapped))) pbase r psize
          (idx + 1) (mapped + BASE_PAGE_SIZE) j
          (by rw [updf_ne _ _ _ _ hne]; exact hj)
        rw [this, updf_ne _ _ _ _ hne]
    · rw [if_neg hc]

/-- The number of bytes the 4 KiB loop advances is independent of which
slots are present. -/
lemma ptLoopF_mapped : ∀ (gas : Nat) (pt : Nat → PTEntry) (pbase : Nat) (r : Rights)
    (psize idx mapped : Nat),
    512 ≤ gas + idx →
    mapped % BASE_PAGE_SIZE = 0 → psize % BASE_PAGE_SIZE = 0 →
    (ptLoopF gas pt pbase r psize idx mapped).2 =
      mapped + min ((psize - mapped) / BASE_PAGE_SIZE) (512 - idx) * BASE_PAGE_SIZE := by
  intro gas
  induction gas with
  | zero =>
    intro pt pbase r psize idx mapped hgas hm hps
    have hidx : 512 - idx = 0 := by omega
    simp [ptLoopF, hidx]
  | succ gas ih =>
    intro pt pbase r psize idx mapped hgas hm hps
    simp only [ptLoopF]
    by_cases hc : mapped < psize ∧ idx < 512
    · rw [if_pos hc]
      simp only [show BASE_PAGE_SIZE = 4096 from rfl] at hm hps ⊢
      have hcnt : min ((psize - mapped) / 4096) (512 - idx) =
          min ((psize - (mapped + 4096)) / 4096) (512 - (idx + 1)) + 1 := by
        omega
      have ihv := ih (if (pt idx).isPresent = true then pt
          else updf pt idx (PTEntry.page r (pbase + mapped))) pbase r psize
          (idx + 1) (mapped + 4096) (by omega)
          (by show (mapped + 4096) % 4096 = 0; omega)
          (by show psize % 4096 = 0; omega)
      simp only [show BASE_PAGE_SIZE = 4096 from rfl] at ihv
      rw [ihv, hcnt]
      omega
    · rw [if_neg hc]
      simp only [show BASE_PAGE_SIZE = 4096 from rfl] at hm hps ⊢
      have hcnt : min ((psize - mapped) / 4096) (512 - idx) = 0 := by
        omega
      simp [hcnt]

/-! ### Loop wrappers -/

lemma hugeLoop_spec (pdpt : Nat → PDPTEntry) (pbase : Nat) (r : Rights)
    (psize idx : Nat) (pdpt' : Nat → PDPTEntry) (mapped' : Nat)
    (hidx : idx ≤ 512)
    (hrun : hugeLoop pdpt pbase r psize idx = Option.some (pdpt', mapped')) :
    mapped' = min (psize / HUGE_PAGE_SIZE) (512 - idx) * HUGE_PAGE_SIZE ∧
    (∀ j, idx ≤ j → j < idx + min (psize / HUGE_PAGE_SIZE) (512 - idx) →
      (pdpt j).isPresent = false ∧
      pdpt' j = PDPTEntry.page r (pbase + (j - idx) * HUGE_PAGE_SIZE)) ∧
    (∀ j, j < idx ∨ idx + min (psize / HUGE_PAGE_SIZE) (512 - idx) ≤ j →
      pdpt' j = pdpt j) := by
  have h := hugeLoopF_spec (512 - idx) pdpt pbase r psize idx 0 pdpt' mapped'
    (by omega) hrun
  simpa using h

lemma largeLoop_spec (pd : Nat → PDEntry) (pbase : Nat) (r : Rights)
    (psize idx : Nat) (pd' : Nat → PDEntry) (mapped' : Nat)
    (hidx : idx ≤ 512)
    (hrun : largeLoop pd pbase r psize idx = Option.some (pd', mapped')) :
    mapped' = min (psize / LARGE_PAGE_SIZE) (512 - idx) * LARGE_PAGE_SIZE ∧
    (∀ j, idx ≤ j → j < idx + min (psize / LARGE_PAGE_SIZE) (512 - idx) →
      (pd j).isPresent = false ∧
      pd' j = PDEntry.page r (pbase + (j - idx) * LARGE_PAGE_SIZE)) ∧
    (∀ j, j < idx ∨ idx + min (psize / LARGE_PAGE_SIZE) (512 - idx) ≤ j →
      pd' j = pd j) := by
  have h := largeLoopF_spec (512 - idx) pd pbase r psize idx 0 pd' mapped'
    (by omega) hrun
  simpa using h

lemma ptLoop_spec (pt : Nat → PTEntry) (pbase : Nat) (r : Rights)
    (psize idx : Nat)
    (hidx : idx ≤ 512) (hps : psize % BASE_PAGE_SIZE = 0)
    (hnp : ∀ j, idx ≤ j → j < idx + min (psize / BASE_PAGE_SIZE) (512 - idx) →
      (pt j).isPresent = false) :
    (ptLoop pt pbase r psize idx).2 =
      min (psize / BASE_PAGE_SIZE) (512 - idx) * BASE_PAGE_SIZE ∧
    (∀ j, idx ≤ j → j < idx + min (psize / BASE_PAGE_SIZE) (512 - idx) →
      (ptLoop pt pbase r psize idx).1 j =
        PTEntry.page r (pbase + (j - idx) * BASE_PAGE_SIZE)) ∧
    (∀ j, j < idx ∨ idx + min (psize / BASE_PAGE_SIZE) (512 - idx) ≤ j →
      (ptLoop pt pbase r psize idx).1 j = pt j) := by
  have h := ptLoopF_spec (512 - idx) pt pbase r psize idx 0
    (ptLoop pt pbase r psize idx).1 (ptLoop pt pbase r psize idx).2
    (by omega) (by simp) hps (by simpa using hnp) rfl
  simpa using h

lemma ptLoop_mapped (pt : Nat → PTEntry) (pbase : Nat) (r : Rights)
    (psize idx : Nat) (hidx : idx ≤ 512) (hps : psize % BASE_PAGE_SIZE = 0) :
    (ptLoop pt pbase r psize idx).2 =
      min (psize / BASE_PAGE_SIZE) (512 - idx) * BASE_PAGE_SIZE := by
  have h := ptLoopF_mapped (512 - idx) pt pbase r psize idx 0
    (by omega) (by simp) hps
  simpa using h

lemma ptLoop_preserve (pt : Nat → PTEntry) (pbase : Nat) (r : Rights)
    (psize idx j : Nat) (hj : (pt j).isPresent = true) :
    (ptLoop pt pbase r psize idx).1 j = pt j :=
  ptLoopF_preserve (512 - idx) pt pbase r psize idx 0 j hj

/-! ### Index arithmetic -/

lemma pml4Index_lt (v : Nat) : pml4Index v < 512 := Nat.mod_lt _ (by omega)

lemma pdptIndex_lt (v : Nat) : pdptIndex v < 512 := Nat.mod_lt _ (by omega)

lemma pdIndex_lt (v : Nat) : pdIndex v < 512 := Nat.mod_lt _ (by omega)

lemma ptIndex_lt (v : Nat) : ptIndex v < 512 := Nat.mod_lt _ (by omega)

/-- Walking an offset `k` below one PDPT table from a slot-aligned base:
the level-4 index is unchanged, the level-3 index advances by whole
1 GiB steps, and the 1 GiB page offset is `k`'s remainder. -/
lemma huge_walk (i4 i3 k : Nat) (h4 : i4 < 512) (h3 : i3 < 512)
    (hk : k < (512 - i3) * HUGE_PAGE_SIZE) :
    pml4Index (PML4_SLOT_SIZE * i4 + HUGE_PAGE_SIZE * i3 + k) = i4 ∧
    pdptIndex (PML4_SLOT_SIZE * i4 + HUGE_PAGE_SIZE * i3 + k) = i3 + k / HUGE_PAGE_SIZE ∧
    hugePageOffset (PML4_SLOT_SIZE * i4 + HUGE_PAGE_SIZE * i3 + k) = k % HUGE_PAGE_SIZE := by
  simp only [pml4Index, pdptIndex, hugePageOffset,
    show PML4_SLOT_SIZE = 549755813888 from rfl,
    show HUGE_PAGE_SIZE = 1073741824 from rfl] at hk ⊢
  omega

/-- An address below `2^48` whose level-4 index is `i4` and whose
level-3 index lies in `[i3, i3+cnt)` lies in the byte range those slots
cover. -/
lemma huge_cover (i4 i3 cnt a : Nat) (h4 : i4 < 512) (hcnt : i3 + cnt ≤ 512)
    (ha : a < 281474976710656)
    (h1 : pml4Index a = i4) (h2 : i3 ≤ pdptIndex a) (h3 : pdptIndex a < i3 + cnt) :
    PML4_SLOT_SIZE * i4 + HUGE_PAGE_SIZE * i3 ≤ a ∧
    a < PML4_SLOT_SIZE * i4 + HUGE_PAGE_SIZE * i3 + cnt * HUGE_PAGE_SIZE := by
  simp only [pml4Index, pdptIndex,
    show PML4_SLOT_SIZE = 549755813888 from rfl,
    show HUGE_PAGE_SIZE = 1073741824 from rfl] at h1 h2 h3 ⊢
  omega

/-- Walking an offset `k` below one PD table from a slot-aligned base. -/
lemma large_walk (i4 i3 i2 k : Nat) (h4 : i4 < 512) (h3 : i3 < 512) (h2 : i2 < 512)
    (hk : k < (512 - i2) * LARGE_PAGE_SIZE) :
    pml4Index (PML4_SLOT_SIZE * i4 + HUGE_PAGE_SIZE * i3 + LARGE_PAGE_SIZE * i2 + k) = i4 ∧
    pdptIndex (PML4_SLOT_SIZE * i4 + HUGE_PAGE_SIZE * i3 + LARGE_PAGE_SIZE * i2 + k) = i3 ∧
    pdIndex (PML4_SLOT_SIZE * i4 + HUGE_PAGE_SIZE * i3 + LARGE_PAGE_SIZE * i2 + k) =
      i2 + k / LARGE_PAGE_SIZE ∧
    largePageOffset (PML4_SLOT_SIZE * i4 + HUGE_PAGE_SIZE * i3 + LARGE_PAGE_SIZE * i2 + k) =
      k % LARGE_PAGE_SIZE := by
  simp only [pml4Index, pdptIndex, pdIndex, largePageOffset,
    show PML4_SLOT_SIZE = 549755813888 from rfl,
    show HUGE_PAGE_SIZE = 1073741824 from rfl,
    show LARGE_PAGE_SIZE = 2097152 from rfl] at hk ⊢
  omega

/-- An address below `2^48` agreeing with a 2 MiB-slot-aligned base on
levels 4 and 3 whose level-2 index lies in `[i2, i2+cnt)` lies in the
byte range those slots cover. -/
lemma large_cover (i4 i3 i2 cnt a : Nat) (h4 : i4 < 512) (h3 : i3 < 512)
    (hcnt : i2 + cnt ≤ 512) (ha : a < 281474976710656)
    (e1 : pml4Index a = i4) (e2 : pdptIndex a = i3)
    (e3 : i2 ≤ pdIndex a) (e4 : pdIndex a < i2 + cnt) :
    PML4_SLOT_SIZE * i4 + HUGE_PAGE_SIZE * i3 + LARGE_PAGE_SIZE * i2 ≤ a ∧
    a < PML4_SLOT_SIZE * i4 + HUGE_PAGE_SIZE * i3 + LARGE_PAGE_SIZE * i2 +
      cnt * LARGE_PAGE_SIZE := by
  simp only [pml4Index, pdptIndex, pdIndex,
    show PML4_SLOT_SIZE = 549755813888 from rfl,
    show HUGE_PAGE_SIZE = 1073741824 from rfl,
    show LARGE_PAGE_SIZE = 2097152 from rfl] at e1 e2 e3 e4 ⊢
  omega

/-- Walking an offset `k` below one PT table from a 4 KiB-aligned base:
all upper indices are unchanged while `k` stays within the table. -/
lemma base_walk (v k : Nat) (hv : v % BASE_PAGE_SIZE = 0)
    (hk : k < (512 - ptIndex v) * BASE_PAGE_SIZE) :
    pml4Index (v + k) = pml4Index v ∧
    pdptIndex (v + k) = pdptIndex v ∧
    pdIndex (v + k) = pdIndex v ∧
    ptIndex (v + k) = ptIndex v + k / BASE_PAGE_SIZE ∧
    basePageOffset (v + k) = k % BASE_PAGE_SIZE := by
  simp only [pml4Index, pdptIndex, pdIndex, ptIndex, basePageOffset,
    show PML4_SLOT_SIZE = 549755813888 from rfl,
    show HUGE_PAGE_SIZE = 1073741824 from rfl,
    show LARGE_PAGE_SIZE = 2097152 from rfl,
    show BASE_PAGE_SIZE = 4096 from rfl] at hv hk ⊢
  omega

/-- An address below `2^48` agreeing with a 4 KiB-aligned base `v` on
levels 4, 3 and 2, whose level-1 index lies in `[i1, i1+cnt)`, lies in
the byte range those slots cover. -/
lemma base_cover (v cnt a : Nat) (hv : v % BASE_PAGE_SIZE = 0)
    (hvlt : v < 281474976710656)
    (hcnt : ptIndex v + cnt ≤ 512) (ha : a < 281474976710656)
    (e1 : pml4Index a = pml4Index v) (e2 : pdptIndex a = pdptIndex v)
    (e3 : pdIndex a = pdIndex v)
    (e4 : ptIndex v ≤ ptIndex a) (e5 : ptIndex a < ptIndex v + cnt) :
    v ≤ a ∧ a < v + cnt * BASE_PAGE_SIZE := by
  simp only [pml4Index, pdptIndex, pdIndex, ptIndex,
    show PML4_SLOT_SIZE = 549755813888 from rfl,
    show HUGE_PAGE_SIZE = 1073741824 from rfl,
    show LARGE_PAGE_SIZE = 2097152 from rfl,
    show BASE_PAGE_SIZE = 4096 from rfl] at hv e1 e2 e3 e4 e5 ⊢
  omega

/-- A 1 GiB-aligned address below `2^48` equals the slot address of its
level-4/level-3 indices (the huge-path guard in `map_generic`). -/
lemma giga_slot_eq (v : Nat) (hv : v % HUGE_PAGE_SIZE = 0)
    (hlt : v < 281474976710656) :
    v = PML4_SLOT_SIZE * pml4Index v + HUGE_PAGE_SIZE * pdptIndex v := by
  simp only [pml4Index, pdptIndex,
    show PML4_SLOT_SIZE = 549755813888 from rfl,
    show HUGE_PAGE_SIZE = 1073741824 from rfl] at hv ⊢
  omega

/-- A 2 MiB-aligned address below `2^48` equals the slot address of its
level-4/3/2 indices (the large-path guard in `map_generic`). -/
lemma large_slot_eq (v : Nat) (hv : v % LARGE_PAGE_SIZE = 0)
    (hlt : v < 281474976710656) :
    v = PML4_SLOT_SIZE * pml4Index v + HUGE_PAGE_SIZE * pdptIndex v +
      LARGE_PAGE_SIZE * pdIndex v := by
  simp only [pml4Index, pdptIndex, pdIndex,
    show PML4_SLOT_SIZE = 549755813888 from rfl,
    show HUGE_PAGE_SIZE = 1073741824 from rfl,
    show LARGE_PAGE_SIZE = 2097152 from rfl] at hv ⊢
  omega

/-! ### Goodness helpers -/

lemma allB_iff (f : Nat → Bool) :
    ((List.range 512).all f = true) ↔ ∀ i, i < 512 → f i = true := by
  simp [List.all_eq_true, List.mem_range]

lemma vspaceGoodB_iff (vs : VSpace) :
    vspaceGoodB vs = true ↔ ∀ i, i < 512 → (vs.pml4 i).goodB = true := by
  simp [vspaceGoodB, allB_iff]

lemma pdptGoodB_iff (pdpt : Nat → PDPTEntry) :
    pdptGoodB pdpt = true ↔ ∀ i, i < 512 → (pdpt i).goodB = true := by
  simp [pdptGoodB, allB_iff]

lemma pdGoodB_iff (pd : Nat → PDEntry) :
    pdGoodB pd = true ↔ ∀ i, i < 512 → (pd i).goodB = true := by
  simp [pdGoodB, allB_iff]

lemma vspaceGoodB_new : vspaceGoodB VSpace.new = true := by
  rw [vspaceGoodB_iff]
  intro i hi
  rfl

/-! ### Entry-path helpers -/

lemma PML4Entry_not_present_eq (e : PML4Entry) (h : e.isPresent = false) :
    e = PML4Entry.nonPresent := by
  cases e <;> simp_all [PML4Entry.isPresent]

lemma if_updf_ne {α : Type} {c : Prop} [Decidable c] (f : Nat → α) (i j : Nat) (e : α)
    (hj : j ≠ i) : (if c then f else updf f i e) j = f j := by
  split
  · rfl
  · exact updf_ne _ _ _ _ hj

lemma if_updf_at {α : Type} {c : Prop} [Decidable c] (f : Nat → α) (i : Nat) (e : α) :
    (if c then f else updf f i e) i = if c then f i else e := by
  split <;> simp

lemma l3entryAt_of_nonPresent {vs : VSpace} {a : Nat}
    (h : vs.pml4 (pml4Index a) = PML4Entry.nonPresent) :
    l3entryAt vs a = PDPTEntry.nonPresent := by
  unfold l3entryAt
  rw [h]

lemma l3entryAt_of_table {vs : VSpace} {a : Nat} {r : Rights} {pdpt : Nat → PDPTEntry}
    (h : vs.pml4 (pml4Index a) = PML4Entry.table r pdpt) :
    l3entryAt vs a = pdpt (pdptIndex a) := by
  unfold l3entryAt
  rw [h]

lemma l2entryAt_of_table {vs : VSpace} {a : Nat} {r : Rights} {pd : Nat → PDEntry}
    (h : l3entryAt vs a = PDPTEntry.table r pd) :
    l2entryAt vs a = pd (pdIndex a) := by
  unfold l2entryAt
  rw [h]

lemma l2entryAt_of_nonPresent {vs : VSpace} {a : Nat}
    (h : l3entryAt vs a = PDPTEntry.nonPresent) :
    l2entryAt vs a = PDEntry.nonPresent := by
  unfold l2entryAt
  rw [h]

lemma l2entryAt_of_page {vs : VSpace} {a : Nat} {r : Rights} {x : Nat}
    (h : l3entryAt vs a = PDPTEntry.page r x) :
    l2entryAt vs a = PDEntry.nonPresent := by
  unfold l2entryAt
  rw [h]

/-! ### Phase lemma: 1 GiB path -/

/-- Everything the master induction needs about the huge-page phase of
`map_generic`: the loop result written back into the level-4 slot. -/
lemma huge_phase (vs vs2 : VSpace) (vbase pbase psize : Nat) (rr r4 : Rights)
    (pml4A : Nat → PML4Entry) (pdpt pdpt2 : Nat → PDPTEntry) (mapped : Nat)
    (hAdef : pml4A = if (vs.pml4 (pml4Index vbase)).isPresent = true then vs.pml4
      else updf vs.pml4 (pml4Index vbase)
        (PML4Entry.table intermediateRights (fun _ => PDPTEntry.nonPresent)))
    (h4 : pml4A (pml4Index vbase) = PML4Entry.table r4 pdpt)
    (hveq : vbase = PML4_SLOT_SIZE * pml4Index vbase + HUGE_PAGE_SIZE * pdptIndex vbase)
    (hrun : hugeLoop pdpt pbase rr psize (pdptIndex vbase) = Option.some (pdpt2, mapped))
    (hvs2 : vs2 = ⟨updf pml4A (pml4Index vbase) (PML4Entry.table r4 pdpt2)⟩) :
    mapped = min (psize / HUGE_PAGE_SIZE) (512 - pdptIndex vbase) * HUGE_PAGE_SIZE ∧
    (∀ k, k < mapped → resolve_addr vs2 (vbase + k) = Option.some (pbase + k)) ∧
    (∀ a, a < 281474976710656 → (a < vbase ∨ vbase + mapped ≤ a) →
      resolve_addr vs2 a = resolve_addr vs a) ∧
    (∀ k, k < mapped → (l3entryAt vs (vbase + k)).isPage = false ∧
      (l2entryAt vs (vbase + k)).isPage = false) ∧
    (∀ a r x, l3entryAt vs a = PDPTEntry.page r x → l3entryAt vs2 a = PDPTEntry.page r x) ∧
    (∀ a r x, l2entryAt vs a = PDEntry.page r x → l2entryAt vs2 a = PDEntry.page r x) ∧
    (∀ j, j * HUGE_PAGE_SIZE < mapped →
      l3entryAt vs2 (vbase + j * HUGE_PAGE_SIZE) =
        PDPTEntry.page rr (pbase + j * HUGE_PAGE_SIZE)) ∧
    (∀ a, pml4Index a ≠ pml4Index vbase ∨ pdptIndex a < pdptIndex vbase ∨
      pdptIndex vbase + mapped / HUGE_PAGE_SIZE ≤ pdptIndex a →
      l3entryAt vs2 a = l3entryAt vs a) ∧
    (vspaceGoodB vs = true → vspaceGoodB vs2 = true) := by
  subst hvs2
  set i4 := pml4Index vbase with hi4
  set i3 := pdptIndex vbase with hi3
  have hi4lt : i4 < 512 := pml4Index_lt vbase
  have hi3lt : i3 < 512 := pdptIndex_lt vbase
  obtain ⟨hm, hin, hout⟩ :=
    hugeLoop_spec pdpt pbase rr psize i3 pdpt2 mapped (by omega) hrun
  set cnt := min (psize / HUGE_PAGE_SIZE) (512 - i3) with hcnt
  have hcnt_le : cnt ≤ 512 - i3 := min_le_right _ _
  have hA_ne : ∀ j, j ≠ i4 → pml4A j = vs.pml4 j := by
    intro j hj
    rw [hAdef]
    exact if_updf_ne _ _ _ _ hj
  have hA_cases : vs.pml4 i4 = PML4Entry.table r4 pdpt ∨
      (vs.pml4 i4 = PML4Entry.nonPresent ∧ r4 = intermediateRights ∧
        pdpt = fun _ => PDPTEntry.nonPresent) := by
    by_cases hp : (vs.pml4 i4).isPresent = true
    · left
      rw [hAdef, if_pos hp] at h4
      exact h4
    · right
      have hnp := PML4Entry_not_present_eq _ (by simpa using hp)
      rw [hAdef, if_neg hp, updf_same] at h4
      cases h4
      exact ⟨hnp, rfl, rfl⟩
  have hvs2l3 : ∀ a, pml4Index a = i4 →
      l3entryAt ⟨updf pml4A i4 (PML4Entry.table r4 pdpt2)⟩ a = pdpt2 (pdptIndex a) := by
    intro a ha
    have h : (VSpace.mk (updf pml4A i4 (PML4Entry.table r4 pdpt2))).pml4 (pml4Index a) =
        PML4Entry.table r4 pdpt2 := by
      show updf pml4A i4 (PML4Entry.table r4 pdpt2) (pml4Index a) = _
      rw [ha, updf_same]
    exact l3entryAt_of_table h
  have hvs2l3' : ∀ a, pml4Index a ≠ i4 →
      l3entryAt ⟨updf pml4A i4 (PML4Entry.table r4 pdpt2)⟩ a = l3entryAt vs a := by
    intro a ha
    unfold l3entryAt
    show (match updf pml4A i4 (PML4Entry.table r4 pdpt2) (pml4Index a) with
      | PML4Entry.nonPresent => PDPTEntry.nonPresent
      | PML4Entry.table _ pdpt => pdpt (pdptIndex a)) = _
    rw [updf_ne _ _ _ _ ha, hA_ne _ ha]
  have hl3vs : ∀ a, pml4Index a = i4 →
      l3entryAt vs a = pdpt (pdptIndex a) ∨
      (l3entryAt vs a = PDPTEntry.nonPresent ∧ pdpt (pdptIndex a) = PDPTEntry.nonPresent) := by
    intro a ha
    rcases hA_cases with hp | ⟨hp, hr, hpdpt⟩
    · left
      exact l3entryAt_of_table (by rw [ha]; exact hp)
    · right
      refine ⟨l3entryAt_of_nonPresent (by rw [ha]; exact hp), ?_⟩
      rw [hpdpt]
  have hl3T : ∀ a, pml4Index a ≠ i4 ∨ pdptIndex a < i3 ∨ i3 + cnt ≤ pdptIndex a →
      l3entryAt ⟨updf pml4A i4 (PML4Entry.table r4 pdpt2)⟩ a = l3entryAt vs a := by
    intro a ha
    by_cases h : pml4Index a = i4
    · have hrange : pdptIndex a < i3 ∨ i3 + cnt ≤ pdptIndex a := by tauto
      rw [hvs2l3 a h, hout _ hrange]
      rcases hl3vs a h with he | ⟨he1, he2⟩
      · rw [he]
      · rw [he1, he2]
    · exact hvs2l3' a h
  refine ⟨hm, ?_, ?_, ?_, ?_, ?_, ?_, ?_, ?_⟩
  · -- in-range resolution
    intro k hk
    have hmlit : mapped = cnt * 1073741824 := hm
    have hkr : k < (512 - i3) * 1073741824 := by omega
    obtain ⟨hw1, hw2, hw3⟩ := huge_walk i4 i3 k hi4lt hi3lt hkr
    rw [hveq]
    rw [resolve_eq_l3, hvs2l3 _ hw1, hw2]
    have hjlt : i3 + k / 1073741824 < i3 + cnt := by omega
    obtain ⟨_, hval⟩ := hin (i3 + k / HUGE_PAGE_SIZE) (Nat.le_add_right _ _) hjlt
    rw [hval]
    simp only [resolveFrom3]
    rw [hw3]
    congr 1
    show pbase + (i3 + k / 1073741824 - i3) * 1073741824 + k % 1073741824 = pbase + k
    omega
  · -- frame: outside the mapped range nothing changes
    intro a ha houtr
    by_cases h : pml4Index a = i4
    · by_cases hr : i3 ≤ pdptIndex a ∧ pdptIndex a < i3 + cnt
      · obtain ⟨hc1, hc2⟩ := huge_cover i4 i3 cnt a hi4lt (by omega) ha h hr.1 hr.2
        rw [← hveq] at hc1 hc2
        have hc2' : a < vbase + cnt * 1073741824 := hc2
        have hmlit : mapped = cnt * 1073741824 := hm
        omega
      · rw [resolve_eq_l3, resolve_eq_l3, hl3T a (by omega)]
    · rw [resolve_eq_l3, resolve_eq_l3, hl3T a (Or.inl h)]
  · -- the covered range had no huge/large leaf before the call
    intro k hk
    have hmlit : mapped = cnt * 1073741824 := hm
    have hkr : k < (512 - i3) * 1073741824 := by omega
    obtain ⟨hw1, hw2, hw3⟩ := huge_walk i4 i3 k hi4lt hi3lt hkr
    have hjlt : i3 + k / 1073741824 < i3 + cnt := by omega
    have hl3val : l3entryAt vs (vbase + k) = PDPTEntry.nonPresent := by
      rw [hveq]
      rcases hl3vs _ (by rw [hw1]) with he | ⟨he1, _⟩
      · rw [he, hw2]
        exact PDPTEntry_not_present_eq _ (hin (i3 + k / HUGE_PAGE_SIZE) (Nat.le_add_right _ _) hjlt).1
      · exact he1
    rw [hl3val, l2entryAt_of_nonPresent hl3val]
    exact ⟨rfl, rfl⟩
  · -- level-3 leaves persist
    intro a r x hpage
    by_cases h : pml4Index a = i4
    · rcases hl3vs a h with he | ⟨he1, _⟩
      · by_cases hr : i3 ≤ pdptIndex a ∧ pdptIndex a < i3 + cnt
        · have := (hin _ hr.1 hr.2).1
          rw [he] at hpage
          rw [PDPTEntry_not_present_eq _ this] at hpage
          cases hpage
        · rw [hl3T a (by omega)]
          exact hpage
      · rw [he1] at hpage
        cases hpage
    · rw [hvs2l3' a h]
      exact hpage
  · -- level-2 leaves persist
    intro a r x hpage
    unfold l2entryAt at hpage ⊢
    cases hl3a : l3entryAt vs a with
    | nonPresent => rw [hl3a] at hpage; cases hpage
    | page r3 x3 => rw [hl3a] at hpage; cases hpage
    | table r3 pd3 =>
      rw [hl3a] at hpage
      have hnew : l3entryAt ⟨updf pml4A i4 (PML4Entry.table r4 pdpt2)⟩ a =
          PDPTEntry.table r3 pd3 := by
        by_cases h : pml4Index a = i4
        · rcases hl3vs a h with he | ⟨he1, _⟩
          · by_cases hr : i3 ≤ pdptIndex a ∧ pdptIndex a < i3 + cnt
            · have := (hin _ hr.1 hr.2).1
              rw [he] at hl3a
              rw [PDPTEntry_not_present_eq _ this] at hl3a
              cases hl3a
            · rw [hl3T a (by omega)]
              exact hl3a
          · rw [he1] at hl3a
            cases hl3a
        · rw [hvs2l3' a h]
          exact hl3a
      rw [hnew]
      exact hpage
  · -- the installed huge leaves
    intro j hj
    have hmlit : mapped = cnt * 1073741824 := hm
    have hj' : j * 1073741824 < mapped := hj
    have hjcnt : j < cnt := by omega
    have hkr : j * 1073741824 < (512 - i3) * 1073741824 := by omega
    obtain ⟨hw1, hw2, _⟩ := huge_walk i4 i3 (j * HUGE_PAGE_SIZE) hi4lt hi3lt hkr
    have hdiv : j * HUGE_PAGE_SIZE / HUGE_PAGE_SIZE = j := by
      show j * 1073741824 / 1073741824 = j
      omega
    rw [hveq, hvs2l3 _ hw1, hw2, hdiv]
    obtain ⟨_, hval⟩ := hin (i3 + j) (Nat.le_add_right _ _) (by omega)
    rw [hval]
    have hsub : i3 + j - i3 = j := by omega
    rw [hsub]
  · -- level-3 entries outside the written slots are unchanged
    intro a ha
    refine hl3T a ?_
    rcases ha with h | h | h
    · exact Or.inl h
    · exact Or.inr (Or.inl h)
    · refine Or.inr (Or.inr ?_)
      have hmlit : mapped = cnt * 1073741824 := hm
      have hdiv : mapped / HUGE_PAGE_SIZE = cnt := by
        show mapped / 1073741824 = cnt
        omega
      omega
  · -- flag discipline is preserved
    intro hgood
    rw [vspaceGoodB_iff] at hgood ⊢
    intro i hilt
    show (updf pml4A i4 (PML4Entry.table r4 pdpt2) i).goodB = true
    by_cases h : i = i4
    · subst h
      rw [updf_same]
      have hpdpt2 : pdptGoodB pdpt2 = true := by
        rw [pdptGoodB_iff]
        intro j hjlt
        by_cases hr : i3 ≤ j ∧ j < i3 + cnt
        · rw [(hin j hr.1 hr.2).2]
          rfl
        · rw [hout j (by omega)]
          rcases hA_cases with hp | ⟨_, _, hpdpt⟩
          · have := hgood i4 hi4lt
            rw [hp] at this
            simp only [PML4Entry.goodB, Bool.and_eq_true] at this
            exact (pdptGoodB_iff pdpt).1 this.2 j hjlt
          · rw [hpdpt]
            rfl
      have hr4 : r4 = intermediateRights := by
        rcases hA_cases with hp | ⟨_, hr, _⟩
        · have := hgood i4 hi4lt
          rw [hp] at this
          simp only [PML4Entry.goodB, Bool.and_eq_true, decide_eq_true_eq] at this
          exact this.1
        · exact hr
      simp [PML4Entry.goodB, hpdpt2, hr4]
    · rw [updf_ne _ _ _ _ h, hA_ne _ h]
      exact hgood i hilt

/-! ### Install-step case lemmas -/

lemma pml4A_cases (vs : VSpace) (i4 : Nat) (r4 : Rights) (pdpt : Nat → PDPTEntry)
    (pml4A : Nat → PML4Entry)
    (hdef : pml4A = if (vs.pml4 i4).isPresent = true then vs.pml4
      else updf vs.pml4 i4
        (PML4Entry.table intermediateRights (fun _ => PDPTEntry.nonPresent)))
    (h4 : pml4A i4 = PML4Entry.table r4 pdpt) :
    vs.pml4 i4 = PML4Entry.table r4 pdpt ∨
    (vs.pml4 i4 = PML4Entry.nonPresent ∧ r4 = intermediateRights ∧
      pdpt = fun _ => PDPTEntry.nonPresent) := by
  by_cases hp : (vs.pml4 i4).isPresent = true
  · left
    rw [hdef, if_pos hp] at h4
    exact h4
  · right
    have hnp := PML4Entry_not_present_eq _ (by simpa using hp)
    rw [hdef, if_neg hp, updf_same] at h4
    cases h4
    exact ⟨hnp, rfl, rfl⟩

lemma pdptA_cases (pdpt : Nat → PDPTEntry) (i3 : Nat) (r3 : Rights) (pd : Nat → PDEntry)
    (pdptA : Nat → PDPTEntry)
    (hdef : pdptA = if (pdpt i3).isPresent = true then pdpt
      else updf pdpt i3
        (PDPTEntry.table intermediateRights (fun _ => PDEntry.nonPresent)))
    (h3 : pdptA i3 = PDPTEntry.table r3 pd) :
    pdpt i3 = PDPTEntry.table r3 pd ∨
    (pdpt i3 = PDPTEntry.nonPresent ∧ r3 = intermediateRights ∧
      pd = fun _ => PDEntry.nonPresent) := by
  by_cases hp : (pdpt i3).isPresent = true
  · left
    rw [hdef, if_pos hp] at h3
    exact h3
  · right
    have hnp := PDPTEntry_not_present_eq _ (by simpa using hp)
    rw [hdef, if_neg hp, updf_same] at h3
    cases h3
    exact ⟨hnp, rfl, rfl⟩

lemma pdA_cases (pd : Nat → PDEntry) (i2 : Nat) (r2 : Rights) (pt : Nat → PTEntry)
    (pdA : Nat → PDEntry)
    (hdef : pdA = if (pd i2).isPresent = true then pd
      else updf pd i2
        (PDEntry.table intermediateRights (fun _ => PTEntry.nonPresent)))
    (h2 : pdA i2 = PDEntry.table r2 pt) :
    pd i2 = PDEntry.table r2 pt ∨
    (pd i2 = PDEntry.nonPresent ∧ r2 = intermediateRights ∧
      pt = fun _ => PTEntry.nonPresent) := by
  by_cases hp : (pd i2).isPresent = true
  · left
    rw [hdef, if_pos hp] at h2
    exact h2
  · right
    have hnp := PDEntry_not_present_eq _ (by simpa using hp)
    rw [hdef, if_neg hp, updf_same] at h2
    cases h2
    exact ⟨hnp, rfl, rfl⟩

lemma pdptGoodB_empty : pdptGoodB (fun _ => PDPTEntry.nonPresent) = true := by
  rw [pdptGoodB_iff]
  intro i hi
  rfl

lemma pdGoodB_empty : pdGoodB (fun _ => PDEntry.nonPresent) = true := by
  rw [pdGoodB_iff]
  intro i hi
  rfl

/-! ### Phase lemma: 2 MiB path -/

/-- Everything the master induction needs about the large-page phase of
`map_generic`: the loop result written back through levels 3 and 4. -/
lemma large_phase (vs vs2 : VSpace) (vbase pbase psize : Nat) (rr r4 r3 : Rights)
    (pml4A : Nat → PML4Entry) (pdpt pdptA : Nat → PDPTEntry)
    (pd pd2 : Nat → PDEntry) (mapped : Nat)
    (hAdef : pml4A = if (vs.pml4 (pml4Index vbase)).isPresent = true then vs.pml4
      else updf vs.pml4 (pml4Index vbase)
        (PML4Entry.table intermediateRights (fun _ => PDPTEntry.nonPresent)))
    (h4 : pml4A (pml4Index vbase) = PML4Entry.table r4 pdpt)
    (hBdef : pdptA = if (pdpt (pdptIndex vbase)).isPresent = true then pdpt
      else updf pdpt (pdptIndex vbase)
        (PDPTEntry.table intermediateRights (fun _ => PDEntry.nonPresent)))
    (h3 : pdptA (pdptIndex vbase) = PDPTEntry.table r3 pd)
    (hveq : vbase = PML4_SLOT_SIZE * pml4Index vbase + HUGE_PAGE_SIZE * pdptIndex vbase +
      LARGE_PAGE_SIZE * pdIndex vbase)
    (hrun : largeLoop pd pbase rr psize (pdIndex vbase) = Option.some (pd2, mapped))
    (hvs2 : vs2 = ⟨updf pml4A (pml4Index vbase) (PML4Entry.table r4
      (updf pdptA (pdptIndex vbase) (PDPTEntry.table r3 pd2)))⟩) :
    mapped = min (psize / LARGE_PAGE_SIZE) (512 - pdIndex vbase) * LARGE_PAGE_SIZE ∧
    (∀ k, k < mapped → resolve_addr vs2 (vbase + k) = Option.some (pbase + k)) ∧
    (∀ a, a < 281474976710656 → (a < vbase ∨ vbase + mapped ≤ a) →
      resolve_addr vs2 a = resolve_addr vs a) ∧
    (∀ k, k < mapped → (l3entryAt vs (vbase + k)).isPage = false ∧
      (l2entryAt vs (vbase + k)).isPage = false) ∧
    (∀ a r x, l3entryAt vs a = PDPTEntry.page r x → l3entryAt vs2 a = PDPTEntry.page r x) ∧
    (∀ a r x, l2entryAt vs a = PDEntry.page r x → l2entryAt vs2 a = PDEntry.page r x) ∧
    (vspaceGoodB vs = true → vspaceGoodB vs2 = true) := by
  subst hvs2
  set i4 := pml4Index vbase with hi4
  set i3 := pdptIndex vbase with hi3
  set i2 := pdIndex vbase with hi2
  have hi4lt : i4 < 512 := pml4Index_lt vbase
  have hi3lt : i3 < 512 := pdptIndex_lt vbase
  have hi2lt : i2 < 512 := pdIndex_lt vbase
  obtain ⟨hm, hin, hout⟩ :=
    largeLoop_spec pd pbase rr psize i2 pd2 mapped (by omega) hrun
  set cnt := min (psize / LARGE_PAGE_SIZE) (512 - i2) with hcntdef
  have hcnt_le : cnt ≤ 512 - i2 := min_le_right _ _
  have hmlit : mapped = cnt * 2097152 := hm
  have hA_ne : ∀ j, j ≠ i4 → pml4A j = vs.pml4 j := by
    intro j hj
    rw [hAdef]
    exact if_updf_ne _ _ _ _ hj
  have hA_cases := pml4A_cases vs i4 r4 pdpt pml4A hAdef h4
  have hB_ne : ∀ j, j ≠ i3 → pdptA j = pdpt j := by
    intro j hj
    rw [hBdef]
    exact if_updf_ne _ _ _ _ hj
  have hB_cases := pdptA_cases pdpt i3 r3 pd pdptA hBdef h3
  have hvs2top : ∀ a, pml4Index a = i4 →
      l3entryAt ⟨updf pml4A i4 (PML4Entry.table r4 (updf pdptA i3 (PDPTEntry.table r3 pd2)))⟩ a =
        updf pdptA i3 (PDPTEntry.table r3 pd2) (pdptIndex a) := by
    intro a ha
    have h : (VSpace.mk (updf pml4A i4 (PML4Entry.table r4
        (updf pdptA i3 (PDPTEntry.table r3 pd2))))).pml4 (pml4Index a) =
        PML4Entry.table r4 (updf pdptA i3 (PDPTEntry.table r3 pd2)) := by
      show updf pml4A i4 _ (pml4Index a) = _
      rw [ha, updf_same]
    exact l3entryAt_of_table h
  have hvs2l3at : ∀ a, pml4Index a = i4 → pdptIndex a = i3 →
      l3entryAt ⟨updf pml4A i4 (PML4Entry.table r4 (updf pdptA i3 (PDPTEntry.table r3 pd2)))⟩ a =
        PDPTEntry.table r3 pd2 := by
    intro a ha hb
    rw [hvs2top a ha, hb, updf_same]
  have hvs2l3out : ∀ a, pml4Index a = i4 → pdptIndex a ≠ i3 →
      l3entryAt ⟨updf pml4A i4 (PML4Entry.table r4 (updf pdptA i3 (PDPTEntry.table r3 pd2)))⟩ a =
        pdpt (pdptIndex a) := by
    intro a ha hb
    rw [hvs2top a ha, updf_ne _ _ _ _ hb, hB_ne _ hb]
  have hvs2l3ne : ∀ a, pml4Index a ≠ i4 →
      l3entryAt ⟨updf pml4A i4 (PML4Entry.table r4 (updf pdptA i3 (PDPTEntry.table r3 pd2)))⟩ a =
        l3entryAt vs a := by
    intro a ha
    unfold l3entryAt
    show (match updf pml4A i4 (PML4Entry.table r4 (updf pdptA i3 (PDPTEntry.table r3 pd2)))
        (pml4Index a) with
      | PML4Entry.nonPresent => PDPTEntry.nonPresent
      | PML4Entry.table _ pdpt => pdpt (pdptIndex a)) = _
    rw [updf_ne _ _ _ _ ha, hA_ne _ ha]
  have hl3vs : ∀ a, pml4Index a = i4 →
      l3entryAt vs a = pdpt (pdptIndex a) ∨
      (l3entryAt vs a = PDPTEntry.nonPresent ∧ pdpt (pdptIndex a) = PDPTEntry.nonPresent) := by
    intro a ha
    rcases hA_cases with hp | ⟨hp, hr, hpdpt⟩
    · left
      exact l3entryAt_of_table (by rw [ha]; exact hp)
    · right
      refine ⟨l3entryAt_of_nonPresent (by rw [ha]; exact hp), ?_⟩
      rw [hpdpt]
  have hl3T : ∀ a, pml4Index a ≠ i4 ∨ pdptIndex a ≠ i3 →
      l3entryAt ⟨updf pml4A i4 (PML4Entry.table r4 (updf pdptA i3 (PDPTEntry.table r3 pd2)))⟩ a =
        l3entryAt vs a := by
    intro a ha
    by_cases h : pml4Index a = i4
    · have hb : pdptIndex a ≠ i3 := by tauto
      rw [hvs2l3out a h hb]
      rcases hl3vs a h with he | ⟨he1, he2⟩
      · rw [he]
      · rw [he1, he2]
    · exact hvs2l3ne a h
  have hl3vsi3 : ∀ a, pml4Index a = i4 → pdptIndex a = i3 →
      (l3entryAt vs a = PDPTEntry.table r3 pd ∧ pdpt i3 = PDPTEntry.table r3 pd) ∨
      (l3entryAt vs a = PDPTEntry.nonPresent ∧ pd = fun _ => PDEntry.nonPresent) := by
    intro a ha hb
    rcases hl3vs a ha with he | ⟨he1, he2⟩
    · rw [hb] at he
      rcases hB_cases with hc | ⟨hc, _, hpd⟩
      · left
        exact ⟨by rw [he, hc], hc⟩
      · right
        exact ⟨by rw [he, hc], hpd⟩
    · rw [hb] at he2
      rcases hB_cases with hc | ⟨hc, _, hpd⟩
      · rw [hc] at he2
        cases he2
      · right
        exact ⟨he1, hpd⟩
  refine ⟨hm, ?_, ?_, ?_, ?_, ?_, ?_⟩
  · -- in-range resolution
    intro k hk
    have hkr : k < (512 - i2) * 2097152 := by omega
    obtain ⟨hw1, hw2, hw3, hw4⟩ := large_walk i4 i3 i2 k hi4lt hi3lt hi2lt hkr
    rw [hveq]
    rw [resolve_eq_l3, hvs2l3at _ hw1 hw2, resolveFrom3_table, hw3]
    have hjlt : i2 + k / 2097152 < i2 + cnt := by omega
    obtain ⟨_, hval⟩ := hin (i2 + k / LARGE_PAGE_SIZE) (Nat.le_add_right _ _) hjlt
    rw [hval]
    simp only [resolveFrom2]
    rw [hw4]
    congr 1
    show pbase + (i2 + k / 2097152 - i2) * 2097152 + k % 2097152 = pbase + k
    omega
  · -- frame
    intro a ha houtr
    by_cases h : pml4Index a = i4
    · by_cases hb : pdptIndex a = i3
      · by_cases hr : i2 ≤ pdIndex a ∧ pdIndex a < i2 + cnt
        · obtain ⟨hc1, hc2⟩ :=
            large_cover i4 i3 i2 cnt a hi4lt hi3lt (by omega) ha h hb hr.1 hr.2
          rw [← hveq] at hc1 hc2
          have hc2' : a < vbase + cnt * 2097152 := hc2
          omega
        · rw [resolve_eq_l3, resolve_eq_l3, hvs2l3at a h hb, resolveFrom3_table,
            hout (pdIndex a) (by omega)]
          rcases hl3vsi3 a h hb with ⟨hl, _⟩ | ⟨hl, hpd⟩
          · rw [hl, resolveFrom3_table]
          · rw [hl, hpd]
            simp [resolveFrom2, resolveFrom3]
      · rw [resolve_eq_l3, resolve_eq_l3, hl3T a (Or.inr hb)]
    · rw [resolve_eq_l3, resolve_eq_l3, hl3T a (Or.inl h)]
  · -- nothing in range was a leaf before
    intro k hk
    have hkr : k < (512 - i2) * 2097152 := by omega
    obtain ⟨hw1, hw2, hw3, hw4⟩ := large_walk i4 i3 i2 k hi4lt hi3lt hi2lt hkr
    have hjlt : i2 + k / 2097152 < i2 + cnt := by omega
    rw [hveq]
    rcases hl3vsi3 _ hw1 hw2 with ⟨hl, _⟩ | ⟨hl, hpd⟩
    · refine ⟨by rw [hl]; rfl, ?_⟩
      rw [l2entryAt_of_table hl, hw3]
      rw [PDEntry_not_present_eq _ (hin (i2 + k / LARGE_PAGE_SIZE) (Nat.le_add_right _ _) hjlt).1]
      rfl
    · refine ⟨by rw [hl]; rfl, ?_⟩
      rw [l2entryAt_of_nonPresent hl]
      rfl
  · -- level-3 leaves persist
    intro a r x hpage
    by_cases h : pml4Index a = i4
    · by_cases hb : pdptIndex a = i3
      · rcases hl3vsi3 a h hb with ⟨hl, _⟩ | ⟨hl, _⟩
        · rw [hl] at hpage
          cases hpage
        · rw [hl] at hpage
          cases hpage
      · rw [hl3T a (Or.inr hb)]
        exact hpage
    · rw [hvs2l3ne a h]
      exact hpage
  · -- level-2 leaves persist
    intro a r x hpage
    cases hl3a : l3entryAt vs a with
    | nonPresent => rw [l2entryAt_of_nonPresent hl3a] at hpage; cases hpage
    | page r9 x9 => rw [l2entryAt_of_page hl3a] at hpage; cases hpage
    | table r9 pd9 =>
      rw [l2entryAt_of_table hl3a] at hpage
      by_cases h : pml4Index a = i4
      · by_cases hb : pdptIndex a = i3
        · rcases hl3vsi3 a h hb with ⟨hl, _⟩ | ⟨hl, _⟩
          · rw [hl] at hl3a
            injection hl3a with hre hpde
            rw [← hpde] at hpage
            by_cases hr : i2 ≤ pdIndex a ∧ pdIndex a < i2 + cnt
            · rw [PDEntry_not_present_eq _ (hin _ hr.1 hr.2).1] at hpage
              cases hpage
            · rw [l2entryAt_of_table (hvs2l3at a h hb), hout (pdIndex a) (by omega)]
              exact hpage
          · rw [hl] at hl3a
            cases hl3a
        · rw [l2entryAt_of_table (by rw [hl3T a (Or.inr hb)]; exact hl3a)]
          exact hpage
      · rw [l2entryAt_of_table (by rw [hvs2l3ne a h]; exact hl3a)]
        exact hpage
  · -- flag discipline preserved
    intro hgood
    rw [vspaceGoodB_iff] at hgood ⊢
    intro i hilt
    show (updf pml4A i4 (PML4Entry.table r4 (updf pdptA i3 (PDPTEntry.table r3 pd2))) i).goodB
      = true
    by_cases h : i = i4
    · subst h
      rw [updf_same]
      have hr4pdpt : r4 = intermediateRights ∧ pdptGoodB pdpt = true := by
        rcases hA_cases with hp | ⟨_, hr, hpdpt⟩
        · have := hgood i4 hi4lt
          rw [hp] at this
          simp only [PML4Entry.goodB, Bool.and_eq_true, decide_eq_true_eq] at this
          exact this
        · subst hpdpt
          exact ⟨hr, pdptGoodB_empty⟩
      have hr3pd : r3 = intermediateRights ∧ pdGoodB pd = true := by
        rcases hB_cases with hp | ⟨_, hr, hpd⟩
        · have := (pdptGoodB_iff pdpt).1 hr4pdpt.2 i3 hi3lt
          rw [hp] at this
          simp only [PDPTEntry.goodB, Bool.and_eq_true, decide_eq_true_eq] at this
          exact this
        · subst hpd
          exact ⟨hr, pdGoodB_empty⟩
      have hpd2 : pdGoodB pd2 = true := by
        rw [pdGoodB_iff]
        intro j hjlt
        by_cases hr : i2 ≤ j ∧ j < i2 + cnt
        · rw [(hin j hr.1 hr.2).2]
          rfl
        · rw [hout j (by omega)]
          exact (pdGoodB_iff pd).1 hr3pd.2 j hjlt
      have hpdptB : pdptGoodB (updf pdptA i3 (PDPTEntry.table r3 pd2)) = true := by
        rw [pdptGoodB_iff]
        intro j hjlt
        by_cases hj : j = i3
        · subst hj
          rw [updf_same]
          simp [PDPTEntry.goodB, hr3pd.1, hpd2]
        · rw [updf_ne _ _ _ _ hj, hB_ne _ hj]
          exact (pdptGoodB_iff pdpt).1 hr4pdpt.2 j hjlt
      simp [PML4Entry.goodB, hr4pdpt.1, hpdptB]
    · rw [updf_ne _ _ _ _ h, hA_ne _ h]
      exact hgood i hilt

/-! ### Phase lemma: 4 KiB path -/

/-- Presence-independent facts about the 4 KiB phase of `map_generic`:
the number of bytes advanced, that the covered range had no huge/large
leaf, leaf persistence, and the flag discipline. -/
lemma pt_phase_core (vs vs2 : VSpace) (vbase pbase psize : Nat) (rr r4 r3 r2 : Rights)
    (pml4A : Nat → PML4Entry) (pdpt pdptA : Nat → PDPTEntry)
    (pd pdA : Nat → PDEntry) (pt pt2 : Nat → PTEntry) (mapped : Nat)
    (hAdef : pml4A = if (vs.pml4 (pml4Index vbase)).isPresent = true then vs.pml4
      else updf vs.pml4 (pml4Index vbase)
        (PML4Entry.table intermediateRights (fun _ => PDPTEntry.nonPresent)))
    (h4 : pml4A (pml4Index vbase) = PML4Entry.table r4 pdpt)
    (hBdef : pdptA = if (pdpt (pdptIndex vbase)).isPresent = true then pdpt
      else updf pdpt (pdptIndex vbase)
        (PDPTEntry.table intermediateRights (fun _ => PDEntry.nonPresent)))
    (h3 : pdptA (pdptIndex vbase) = PDPTEntry.table r3 pd)
    (hCdef : pdA = if (pd (pdIndex vbase)).isPresent = true then pd
      else updf pd (pdIndex vbase)
        (PDEntry.table intermediateRights (fun _ => PTEntry.nonPresent)))
    (h2 : pdA (pdIndex vbase) = PDEntry.table r2 pt)
    (hvb : vbase % BASE_PAGE_SIZE = 0) (hps : psize % BASE_PAGE_SIZE = 0)
    (hrun : ptLoop pt pbase rr psize (ptIndex vbase) = (pt2, mapped))
    (hvs2 : vs2 = ⟨updf pml4A (pml4Index vbase) (PML4Entry.table r4
      (updf pdptA (pdptIndex vbase) (PDPTEntry.table r3
        (updf pdA (pdIndex vbase) (PDEntry.table r2 pt2)))))⟩) :
    mapped = min (psize / BASE_PAGE_SIZE) (512 - ptIndex vbase) * BASE_PAGE_SIZE ∧
    (∀ k, k < mapped → (l3entryAt vs (vbase + k)).isPage = false ∧
      (l2entryAt vs (vbase + k)).isPage = false) ∧
    (∀ a r x, l3entryAt vs a = PDPTEntry.page r x → l3entryAt vs2 a = PDPTEntry.page r x) ∧
    (∀ a r x, l2entryAt vs a = PDEntry.page r x → l2entryAt vs2 a = PDEntry.page r x) ∧
    (vspaceGoodB vs = true → vspaceGoodB vs2 = true) := by
  subst hvs2
  set i4 := pml4Index vbase with hi4
  set i3 := pdptIndex vbase with hi3
  set i2 := pdIndex vbase with hi2
  set i1 := ptIndex vbase with hi1
  have hi4lt : i4 < 512 := pml4Index_lt vbase
  have hi3lt : i3 < 512 := pdptIndex_lt vbase
  have hi2lt : i2 < 512 := pdIndex_lt vbase
  have hi1lt : i1 < 512 := ptIndex_lt vbase
  have hm : mapped = min (psize / BASE_PAGE_SIZE) (512 - i1) * BASE_PAGE_SIZE := by
    have := ptLoop_mapped pt pbase rr psize i1 (by omega) hps
    rw [hrun] at this
    exact this
  have hmlit : mapped = min (psize / 4096) (512 - i1) * 4096 := hm
  have hA_ne : ∀ j, j ≠ i4 → pml4A j = vs.pml4 j := by
    intro j hj
    rw [hAdef]
    exact if_updf_ne _ _ _ _ hj
  have hA_cases := pml4A_cases vs i4 r4 pdpt pml4A hAdef h4
  have hB_ne : ∀ j, j ≠ i3 → pdptA j = pdpt j := by
    intro j hj
    rw [hBdef]
    exact if_updf_ne _ _ _ _ hj
  have hB_cases := pdptA_cases pdpt i3 r3 pd pdptA hBdef h3
  have hC_ne : ∀ j, j ≠ i2 → pdA j = pd j := by
    intro j hj
    rw [hCdef]
    exact if_updf_ne _ _ _ _ hj
  have hC_cases := pdA_cases pd i2 r2 pt pdA hCdef h2
  have hvs2top : ∀ a, pml4Index a = i4 →
      l3entryAt ⟨updf pml4A i4 (PML4Entry.table r4 (updf pdptA i3 (PDPTEntry.table r3
        (updf pdA i2 (PDEntry.table r2 pt2)))))⟩ a =
        updf pdptA i3 (PDPTEntry.table r3 (updf pdA i2 (PDEntry.table r2 pt2)))
          (pdptIndex a) := by
    intro a ha
    have h : (VSpace.mk (updf pml4A i4 (PML4Entry.table r4 (updf pdptA i3
        (PDPTEntry.table r3 (updf pdA i2 (PDEntry.table r2 pt2))))))).pml4 (pml4Index a) =
        PML4Entry.table r4 (updf pdptA i3 (PDPTEntry.table r3
          (updf pdA i2 (PDEntry.table r2 pt2)))) := by
      show updf pml4A i4 _ (pml4Index a) = _
      rw [ha, updf_same]
    exact l3entryAt_of_table h
  have hvs2l3at : ∀ a, pml4Index a = i4 → pdptIndex a = i3 →
      l3entryAt ⟨updf pml4A i4 (PML4Entry.table r4 (updf pdptA i3 (PDPTEntry.table r3
        (updf pdA i2 (PDEntry.table r2 pt2)))))⟩ a =
        PDPTEntry.table r3 (updf pdA i2 (PDEntry.table r2 pt2)) := by
    intro a ha hb
    rw [hvs2top a ha, hb, updf_same]
  have hvs2l3out : ∀ a, pml4Index a = i4 → pdptIndex a ≠ i3 →
      l3entryAt ⟨updf pml4A i4 (PML4Entry.table r4 (updf pdptA i3 (PDPTEntry.table r3
        (updf pdA i2 (PDEntry.table r2 pt2)))))⟩ a = pdpt (pdptIndex a) := by
    intro a ha hb
    rw [hvs2top a ha, updf_ne _ _ _ _ hb, hB_ne _ hb]
  have hvs2l3ne : ∀ a, pml4Index a ≠ i4 →
      l3entryAt ⟨updf pml4A i4 (PML4Entry.table r4 (updf pdptA i3 (PDPTEntry.table r3
        (updf pdA i2 (PDEntry.table r2 pt2)))))⟩ a = l3entryAt vs a := by
    intro a ha
    unfold l3entryAt
    show (match updf pml4A i4 (PML4Entry.table r4 (updf pdptA i3 (PDPTEntry.table r3
        (updf pdA i2 (PDEntry.table r2 pt2))))) (pml4Index a) with
      | PML4Entry.nonPresent => PDPTEntry.nonPresent
      | PML4Entry.table _ pdpt => pdpt (pdptIndex a)) = _
    rw [updf_ne _ _ _ _ ha, hA_ne _ ha]
  have hl3vs : ∀ a, pml4Index a = i4 →
      l3entryAt vs a = pdpt (pdptIndex a) ∨
      (l3entryAt vs a = PDPTEntry.nonPresent ∧ pdpt (pdptIndex a) = PDPTEntry.nonPresent) := by
    intro a ha
    rcases hA_cases with hp | ⟨hp, hr, hpdpt⟩
    · left
      exact l3entryAt_of_table (by rw [ha]; exact hp)
    · right
      refine ⟨l3entryAt_of_nonPresent (by rw [ha]; exact hp), ?_⟩
      rw [hpdpt]
  have hl3T : ∀ a, pml4Index a ≠ i4 ∨ pdptIndex a ≠ i3 →
      l3entryAt ⟨updf pml4A i4 (PML4Entry.table r4 (updf pdptA i3 (PDPTEntry.table r3
        (updf pdA i2 (PDEntry.table r2 pt2)))))⟩ a = l3entryAt vs a := by
    intro a ha
    by_cases h : pml4Index a = i4
    · have hb : pdptIndex a ≠ i3 := by tauto
      rw [hvs2l3out a h hb]
      rcases hl3vs a h with he | ⟨he1, he2⟩
      · rw [he]
      · rw [he1, he2]
    · exact hvs2l3ne a h
  have hl3vsi3 : ∀ a, pml4Index a = i4 → pdptIndex a = i3 →
      (l3entryAt vs a = PDPTEntry.table r3 pd ∧ pdpt i3 = PDPTEntry.table r3 pd) ∨
      (l3entryAt vs a = PDPTEntry.nonPresent ∧ pd = fun _ => PDEntry.nonPresent) := by
    intro a ha hb
    rcases hl3vs a ha with he | ⟨he1, he2⟩
    · rw [hb] at he
      rcases hB_cases with hc | ⟨hc, _, hpd⟩
      · left
        exact ⟨by rw [he, hc], hc⟩
      · right
        exact ⟨by rw [he, hc], hpd⟩
    · rw [hb] at he2
      rcases hB_cases with hc | ⟨hc, _, hpd⟩
      · rw [hc] at he2
        cases he2
      · right
        exact ⟨he1, hpd⟩
  have hroom : mapped ≤ (512 - i1) * 4096 := by omega
  refine ⟨hm, ?_, ?_, ?_, ?_⟩
  · -- nothing in range was a leaf before
    intro k hk
    obtain ⟨hw1, hw2, hw3, _, _⟩ := base_walk vbase k hvb
      (by rw [← hi1]; show k < (512 - i1) * 4096; omega)
    rcases hl3vsi3 (vbase + k) (by rw [hw1]) (by rw [hw2]) with ⟨hl, _⟩ | ⟨hl, hpd⟩
    · refine ⟨by rw [hl]; rfl, ?_⟩
      rw [l2entryAt_of_table hl, hw3]
      rcases hC_cases with hc | ⟨hc, _, _⟩
      · rw [hc]
        rfl
      · rw [hc]
        rfl
    · refine ⟨by rw [hl]; rfl, ?_⟩
      rw [l2entryAt_of_nonPresent hl]
      rfl
  · -- level-3 leaves persist
    intro a r x hpage
    by_cases h : pml4Index a = i4
    · by_cases hb : pdptIndex a = i3
      · rcases hl3vsi3 a h hb with ⟨hl, _⟩ | ⟨hl, _⟩
        · rw [hl] at hpage
          cases hpage
        · rw [hl] at hpage
          cases hpage
      · rw [hl3T a (Or.inr hb)]
        exact hpage
    · rw [hvs2l3ne a h]
      exact hpage
  · -- level-2 leaves persist
    intro a r x hpage
    cases hl3a : l3entryAt vs a with
    | nonPresent => rw [l2entryAt_of_nonPresent hl3a] at hpage; cases hpage
    | page r9 x9 => rw [l2entryAt_of_page hl3a] at hpage; cases hpage
    | table r9 pd9 =>
      rw [l2entryAt_of_table hl3a] at hpage
      by_cases h : pml4Index a = i4
      · by_cases hb : pdptIndex a = i3
        · rcases hl3vsi3 a h hb with ⟨hl, _⟩ | ⟨hl, _⟩
          · rw [hl] at hl3a
            injection hl3a with hre hpde
            rw [← hpde] at hpage
            rw [l2entryAt_of_table (hvs2l3at a h hb)]
            by_cases hr : pdIndex a = i2
            · rw [hr] at hpage
              rcases hC_cases with hc | ⟨hc, _, _⟩
              · rw [hc] at hpage
                cases hpage
              · rw [hc] at hpage
                cases hpage
            · rw [updf_ne _ _ _ _ hr, hC_ne _ hr]
              exact hpage
          · rw [hl] at hl3a
            cases hl3a
        · rw [l2entryAt_of_table (by rw [hl3T a (Or.inr hb)]; exact hl3a)]
          exact hpage
      · rw [l2entryAt_of_table (by rw [hvs2l3ne a h]; exact hl3a)]
        exact hpage
  · -- flag discipline preserved
    intro hgood
    rw [vspaceGoodB_iff] at hgood ⊢
    intro i hilt
    show (updf pml4A i4 (PML4Entry.table r4 (updf pdptA i3 (PDPTEntry.table r3
      (updf pdA i2 (PDEntry.table r2 pt2))))) i).goodB = true
    by_cases h : i = i4
    · subst h
      rw [updf_same]
      have hr4pdpt : r4 = intermediateRights ∧ pdptGoodB pdpt = true := by
        rcases hA_cases with hp | ⟨_, hr, hpdpt⟩
        · have := hgood i4 hi4lt
          rw [hp] at this
          simp only [PML4Entry.goodB, Bool.and_eq_true, decide_eq_true_eq] at this
          exact this
        · subst hpdpt
          exact ⟨hr, pdptGoodB_empty⟩
      have hr3pd : r3 = intermediateRights ∧ pdGoodB pd = true := by
        rcases hB_cases with hp | ⟨_, hr, hpd⟩
        · have := (pdptGoodB_iff pdpt).1 hr4pdpt.2 i3 hi3lt
          rw [hp] at this
          simp only [PDPTEntry.goodB, Bool.and_eq_true, decide_eq_true_eq] at this
          exact this
        · subst hpd
          exact ⟨hr, pdGoodB_empty⟩
      have hr2 : r2 = intermediateRights := by
        rcases hC_cases with hp | ⟨_, hr, _⟩
        · have := (pdGoodB_iff pd).1 hr3pd.2 i2 hi2lt
          rw [hp] at this
          simp only [PDEntry.goodB, decide_eq_true_eq] at this
          exact this
        · exact hr
      have hpdB : pdGoodB (updf pdA i2 (PDEntry.table r2 pt2)) = true := by
        rw [pdGoodB_iff]
        intro j hjlt
        by_cases hj : j = i2
        · subst hj
          rw [updf_same]
          simp [PDEntry.goodB, hr2]
        · rw [updf_ne _ _ _ _ hj, hC_ne _ hj]
          exact (pdGoodB_iff pd).1 hr3pd.2 j hjlt
      have hpdptB : pdptGoodB (updf pdptA i3 (PDPTEntry.table r3
          (updf pdA i2 (PDEntry.table r2 pt2)))) = true := by
        rw [pdptGoodB_iff]
        intro j hjlt
        by_cases hj : j = i3
        · subst hj
          rw [updf_same]
          simp [PDPTEntry.goodB, hr3pd.1, hpdB]
        · rw [updf_ne _ _ _ _ hj, hB_ne _ hj]
          exact (pdptGoodB_iff pdpt).1 hr4pdpt.2 j hjlt
      simp [PML4Entry.goodB, hr4pdpt.1, hpdptB]
    · rw [updf_ne _ _ _ _ h, hA_ne _ h]
      exact hgood i hilt

/-- If the huge-slot hypotheses of the master lemma hold (1 GiB-aligned
range of whole non-present 1 GiB slots), the huge-path guard of
`map_generic` must succeed: its failure would require a present level-3
slot at `vbase`, contradicting the first slot's emptiness. -/
lemma huge_guard_forced (vs : VSpace) (vbase pbase psize : Nat) (r4 : Rights)
    (pml4A : Nat → PML4Entry) (pdpt : Nat → PDPTEntry)
    (hAdef : pml4A = if (vs.pml4 (pml4Index vbase)).isPresent = true then vs.pml4
      else updf vs.pml4 (pml4Index vbase)
        (PML4Entry.table intermediateRights (fun _ => PDPTEntry.nonPresent)))
    (h4 : pml4A (pml4Index vbase) = PML4Entry.table r4 pdpt)
    (hv4 : vbase % HUGE_PAGE_SIZE = 0) (hp4 : pbase % HUGE_PAGE_SIZE = 0)
    (hsz : HUGE_PAGE_SIZE ≤ psize) (hbound : vbase + psize ≤ 281474976710656)
    (hslots : ∀ j, j < psize / HUGE_PAGE_SIZE →
      l3entryAt vs (vbase + j * HUGE_PAGE_SIZE) = PDPTEntry.nonPresent) :
    (pdpt (pdptIndex vbase)).isPresent = false ∧
    vbase = PML4_SLOT_SIZE * pml4Index vbase + HUGE_PAGE_SIZE * pdptIndex vbase ∧
    pbase % HUGE_PAGE_SIZE = 0 ∧ HUGE_PAGE_SIZE ≤ psize := by
  have hszl : 1073741824 ≤ psize := hsz
  have hveq := giga_slot_eq vbase hv4 (by omega)
  refine ⟨?_, hveq, hp4, hsz⟩
  have hs0 := hslots 0 (by show 0 < psize / 1073741824; omega)
  have haddr : vbase + 0 * HUGE_PAGE_SIZE = vbase := by simp
  rw [haddr] at hs0
  rcases pml4A_cases vs (pml4Index vbase) r4 pdpt pml4A hAdef h4 with hc | hc
  · rw [l3entryAt_of_table hc] at hs0
    rw [hs0]
    rfl
  · rw [hc.2.2]
    rfl

/-- If the whole 4 KiB range starting at `vbase` resolves to nothing, the
level-1 slots that the 4 KiB loop of `map_generic` will touch are all
non-present (whether the intermediate tables pre-existed or were freshly
installed). -/
lemma pt_slots_free (vs : VSpace) (vbase psize : Nat) (r4 r3 r2 : Rights)
    (pml4A : Nat → PML4Entry) (pdpt pdptA : Nat → PDPTEntry)
    (pd pdA : Nat → PDEntry) (pt : Nat → PTEntry)
    (hAdef : pml4A = if (vs.pml4 (pml4Index vbase)).isPresent = true then vs.pml4
      else updf vs.pml4 (pml4Index vbase)
        (PML4Entry.table intermediateRights (fun _ => PDPTEntry.nonPresent)))
    (h4 : pml4A (pml4Index vbase) = PML4Entry.table r4 pdpt)
    (hBdef : pdptA = if (pdpt (pdptIndex vbase)).isPresent = true then pdpt
      else updf pdpt (pdptIndex vbase)
        (PDPTEntry.table intermediateRights (fun _ => PDEntry.nonPresent)))
    (h3 : pdptA (pdptIndex vbase) = PDPTEntry.table r3 pd)
    (hCdef : pdA = if (pd (pdIndex vbase)).isPresent = true then pd
      else updf pd (pdIndex vbase)
        (PDEntry.table intermediateRights (fun _ => PTEntry.nonPresent)))
    (h2 : pdA (pdIndex vbase) = PDEntry.table r2 pt)
    (hvb : vbase % BASE_PAGE_SIZE = 0)
    (hpre : ∀ k, k % BASE_PAGE_SIZE = 0 → k < psize →
      resolve_addr vs (vbase + k) = Option.none) :
    ∀ j, ptIndex vbase ≤ j →
      j < ptIndex vbase + min (psize / BASE_PAGE_SIZE) (512 - ptIndex vbase) →
      (pt j).isPresent = false := by
  intro j hjl hjr
  rcases pdA_cases pd (pdIndex vbase) r2 pt pdA hCdef h2 with hc2 | hc2
  · rcases pdptA_cases pdpt (pdptIndex vbase) r3 pd pdptA hBdef h3 with hc3 | hc3
    · rcases pml4A_cases vs (pml4Index vbase) r4 pdpt pml4A hAdef h4 with hc4p | hc4p
      · have hjrl : j < ptIndex vbase +
            min (psize / 4096) (512 - ptIndex vbase) := hjr
        have hminle : min (psize / 4096) (512 - ptIndex vbase) ≤
            512 - ptIndex vbase := min_le_right _ _
        have hminle2 : min (psize / 4096) (512 - ptIndex vbase) ≤
            psize / 4096 := min_le_left _ _
        have hi1lt : ptIndex vbase < 512 := ptIndex_lt vbase
        obtain ⟨e1, e2, e3, e4, e5⟩ := base_walk vbase
          ((j - ptIndex vbase) * 4096) hvb
          (by show (j - ptIndex vbase) * 4096 <
            (512 - ptIndex vbase) * 4096; omega)
        have hprev := hpre ((j - ptIndex vbase) * 4096)
          (by show (j - ptIndex vbase) * 4096 % 4096 = 0; omega)
          (by omega)
        rw [resolve_eq_l3] at hprev
        have hm4 : vs.pml4 (pml4Index (vbase + (j - ptIndex vbase) * 4096)) =
            PML4Entry.table r4 pdpt := by
          rw [e1]
          exact hc4p
        have hl3 := l3entryAt_of_table hm4
        rw [hl3, e2, hc3, resolveFrom3_table, e3, hc2] at hprev
        simp only [resolveFrom2] at hprev
        rw [e4] at hprev
        have hjk : ptIndex vbase +
            (j - ptIndex vbase) * 4096 / BASE_PAGE_SIZE = j := by
          show ptIndex vbase + (j - ptIndex vbase) * 4096 / 4096 = j
          omega
        rw [hjk] at hprev
        cases hp : pt j with
        | nonPresent => rfl
        | page r x =>
          rw [hp] at hprev
          exact Option.noConfusion hprev
      · rw [hc4p.2.2] at hc3
        exact absurd hc3 (by simp)
    · rw [hc3.2.2] at hc2
      exact absurd hc2 (by simp)
  · rw [hc2.2.2]
    rfl

/-- Resolution facts about the 4 KiB phase when every level-1 slot the
loop visits is non-present (no silent skip): the covered range resolves
to the mapped frames and everything outside is untouched. -/
lemma pt_phase_resolve (vs vs2 : VSpace) (vbase pbase psize : Nat) (rr r4 r3 r2 : Rights)
    (pml4A : Nat → PML4Entry) (pdpt pdptA : Nat → PDPTEntry)
    (pd pdA : Nat → PDEntry) (pt pt2 : Nat → PTEntry) (mapped : Nat)
    (hAdef : pml4A = if (vs.pml4 (pml4Index vbase)).isPresent = true then vs.pml4
      else updf vs.pml4 (pml4Index vbase)
        (PML4Entry.table intermediateRights (fun _ => PDPTEntry.nonPresent)))
    (h4 : pml4A (pml4Index vbase) = PML4Entry.table r4 pdpt)
    (hBdef : pdptA = if (pdpt (pdptIndex vbase)).isPresent = true then pdpt
      else updf pdpt (pdptIndex vbase)
        (PDPTEntry.table intermediateRights (fun _ => PDEntry.nonPresent)))
    (h3 : pdptA (pdptIndex vbase) = PDPTEntry.table r3 pd)
    (hCdef : pdA = if (pd (pdIndex vbase)).isPresent = true then pd
      else updf pd (pdIndex vbase)
        (PDEntry.table intermediateRights (fun _ => PTEntry.nonPresent)))
    (h2 : pdA (pdIndex vbase) = PDEntry.table r2 pt)
    (hvb : vbase % BASE_PAGE_SIZE = 0) (hps : psize % BASE_PAGE_SIZE = 0)
    (hvlt : vbase < 281474976710656)
    (hnp : ∀ j, ptIndex vbase ≤ j →
      j < ptIndex vbase + min (psize / BASE_PAGE_SIZE) (512 - ptIndex vbase) →
      (pt j).isPresent = false)
    (hrun : ptLoop pt pbase rr psize (ptIndex vbase) = (pt2, mapped))
    (hvs2 : vs2 = ⟨updf pml4A (pml4Index vbase) (PML4Entry.table r4
      (updf pdptA (pdptIndex vbase) (PDPTEntry.table r3
        (updf pdA (pdIndex vbase) (PDEntry.table r2 pt2)))))⟩) :
    (∀ k, k < mapped → resolve_addr vs2 (vbase + k) = Option.some (pbase + k)) ∧
    (∀ a, a < 281474976710656 → (a < vbase ∨ vbase + mapped ≤ a) →
      resolve_addr vs2 a = resolve_addr vs a) := by
  subst hvs2
  set i4 := pml4Index vbase with hi4
  set i3 := pdptIndex vbase with hi3
  set i2 := pdIndex vbase with hi2
  set i1 := ptIndex vbase with hi1
  have hi4lt : i4 < 512 := pml4Index_lt vbase
  have hi3lt : i3 < 512 := pdptIndex_lt vbase
  have hi2lt : i2 < 512 := pdIndex_lt vbase
  have hi1lt : i1 < 512 := ptIndex_lt vbase
  obtain ⟨hm, hin, hout⟩ := ptLoop_spec pt pbase rr psize i1 (by omega) hps hnp
  rw [hrun] at hm hin hout
  simp only [] at hm hin hout
  set cnt := min (psize / BASE_PAGE_SIZE) (512 - i1) with hcntdef
  have hcnt_le : cnt ≤ 512 - i1 := min_le_right _ _
  have hmlit : mapped = cnt * 4096 := hm
  have hA_ne : ∀ j, j ≠ i4 → pml4A j = vs.pml4 j := by
    intro j hj
    rw [hAdef]
    exact if_updf_ne _ _ _ _ hj
  have hA_cases := pml4A_cases vs i4 r4 pdpt pml4A hAdef h4
  have hB_ne : ∀ j, j ≠ i3 → pdptA j = pdpt j := by
    intro j hj
    rw [hBdef]
    exact if_updf_ne _ _ _ _ hj
  have hB_cases := pdptA_cases pdpt i3 r3 pd pdptA hBdef h3
  have hC_ne : ∀ j, j ≠ i2 → pdA j = pd j := by
    intro j hj
    rw [hCdef]
    exact if_updf_ne _ _ _ _ hj
  have hC_cases := pdA_cases pd i2 r2 pt pdA hCdef h2
  have hvs2top : ∀ a, pml4Index a = i4 →
      l3entryAt ⟨updf pml4A i4 (PML4Entry.table r4 (updf pdptA i3 (PDPTEntry.table r3
        (updf pdA i2 (PDEntry.table r2 pt2)))))⟩ a =
        updf pdptA i3 (PDPTEntry.table r3 (updf pdA i2 (PDEntry.table r2 pt2)))
          (pdptIndex a) := by
    intro a ha
    have h : (VSpace.mk (updf pml4A i4 (PML4Entry.table r4 (updf pdptA i3
        (PDPTEntry.table r3 (updf pdA i2 (PDEntry.table r2 pt2))))))).pml4 (pml4Index a) =
        PML4Entry.table r4 (updf pdptA i3 (PDPTEntry.table r3
          (updf pdA i2 (PDEntry.table r2 pt2)))) := by
      show updf pml4A i4 _ (pml4Index a) = _
      rw [ha, updf_same]
    exact l3entryAt_of_table h
  have hvs2l3at : ∀ a, pml4Index a = i4 → pdptIndex a = i3 →
      l3entryAt ⟨updf pml4A i4 (PML4Entry.table r4 (updf pdptA i3 (PDPTEntry.table r3
        (updf pdA i2 (PDEntry.table r2 pt2)))))⟩ a =
        PDPTEntry.table r3 (updf pdA i2 (PDEntry.table r2 pt2)) := by
    intro a ha hb
    rw [hvs2top a ha, hb, updf_same]
  have hvs2l3out : ∀ a, pml4Index a = i4 → pdptIndex a ≠ i3 →
      l3entryAt ⟨updf pml4A i4 (PML4Entry.table r4 (updf pdptA i3 (PDPTEntry.table r3
        (updf pdA i2 (PDEntry.table r2 pt2)))))⟩ a = pdpt (pdptIndex a) := by
    intro a ha hb
    rw [hvs2top a ha, updf_ne _ _ _ _ hb, hB_ne _ hb]
  have hvs2l3ne : ∀ a, pml4Index a ≠ i4 →
      l3entryAt ⟨updf pml4A i4 (PML4Entry.table r4 (updf pdptA i3 (PDPTEntry.table r3
        (updf pdA i2 (PDEntry.table r2 pt2)))))⟩ a = l3entryAt vs a := by
    intro a ha
    unfold l3entryAt
    show (match updf pml4A i4 (PML4Entry.table r4 (updf pdptA i3 (PDPTEntry.table r3
        (updf pdA i2 (PDEntry.table r2 pt2))))) (pml4Index a) with
      | PML4Entry.nonPresent => PDPTEntry.nonPresent
      | PML4Entry.table _ pdpt => pdpt (pdptIndex a)) = _
    rw [updf_ne _ _ _ _ ha, hA_ne _ ha]
  have hl3vs : ∀ a, pml4Index a = i4 →
      l3entryAt vs a = pdpt (pdptIndex a) ∨
      (l3entryAt vs a = PDPTEntry.nonPresent ∧ pdpt (pdptIndex a) = PDPTEntry.nonPresent) := by
    intro a ha
    rcases hA_cases with hp | ⟨hp, hr, hpdpt⟩
    · left
      exact l3entryAt_of_table (by rw [ha]; exact hp)
    · right
      refine ⟨l3entryAt_of_nonPresent (by rw [ha]; exact hp), ?_⟩
      rw [hpdpt]
  have hl3T : ∀ a, pml4Index a ≠ i4 ∨ pdptIndex a ≠ i3 →
      l3entryAt ⟨updf pml4A i4 (PML4Entry.table r4 (updf pdptA i3 (PDPTEntry.table r3
        (updf pdA i2 (PDEntry.table r2 pt2)))))⟩ a = l3entryAt vs a := by
    intro a ha
    by_cases h : pml4Index a = i4
    · have hb : pdptIndex a ≠ i3 := by tauto
      rw [hvs2l3out a h hb]
      rcases hl3vs a h with he | ⟨he1, he2⟩
      · rw [he]
      · rw [he1, he2]
    · exact hvs2l3ne a h
  have hl3vsi3 : ∀ a, pml4Index a = i4 → pdptIndex a = i3 →
      (l3entryAt vs a = PDPTEntry.table r3 pd ∧ pdpt i3 = PDPTEntry.table r3 pd) ∨
      (l3entryAt vs a = PDPTEntry.nonPresent ∧ pd = fun _ => PDEntry.nonPresent) := by
    intro a ha hb
    rcases hl3vs a ha with he | ⟨he1, he2⟩
    · rw [hb] at he
      rcases hB_cases with hc | ⟨hc, _, hpd⟩
      · left
        exact ⟨by rw [he, hc], hc⟩
      · right
        exact ⟨by rw [he, hc], hpd⟩
    · rw [hb] at he2
      rcases hB_cases with hc | ⟨hc, _, hpd⟩
      · rw [hc] at he2
        cases he2
      · right
        exact ⟨he1, hpd⟩
  have hpre : ∀ a, pml4Index a = i4 → pdptIndex a = i3 → pdIndex a = i2 →
      (l3entryAt vs a = PDPTEntry.table r3 pd ∧ pd i2 = PDEntry.table r2 pt) ∨
      (resolveFrom3 (l3entryAt vs a) a = Option.none ∧
        pt = fun _ => PTEntry.nonPresent) := by
    intro a ha hb hc
    rcases hl3vsi3 a ha hb with ⟨hl, _⟩ | ⟨hl, hpd⟩
    · rcases hC_cases with hcc | ⟨hcc, _, hpt⟩
      · left
        exact ⟨hl, hcc⟩
      · right
        refine ⟨?_, hpt⟩
        rw [hl, resolveFrom3_table, hc, hcc]
        rfl
    · right
      refine ⟨by rw [hl]; rfl, ?_⟩
      rcases hC_cases with hcc | ⟨hcc, _, hpt⟩
      · rw [hpd] at hcc
        cases hcc
      · exact hpt
  refine ⟨?_, ?_⟩
  · -- in-range resolution
    intro k hk
    obtain ⟨hw1, hw2, hw3, hw4, hw5⟩ := base_walk vbase k hvb
      (by rw [← hi1]; show k < (512 - i1) * 4096; omega)
    rw [resolve_eq_l3, hvs2l3at (vbase + k) (by rw [hw1]) (by rw [hw2]),
      resolveFrom3_table, hw3, ← hi2, updf_same]
    have hklt : i1 + k / 4096 < i1 + cnt := by omega
    have hval := hin (i1 + k / BASE_PAGE_SIZE) (Nat.le_add_right _ _) hklt
    simp only [resolveFrom2]
    rw [hw4, ← hi1, hval, hw5]
    show Option.some (pbase + (i1 + k / BASE_PAGE_SIZE - i1) * BASE_PAGE_SIZE +
      k % BASE_PAGE_SIZE) = Option.some (pbase + k)
    congr 1
    show pbase + (i1 + k / 4096 - i1) * 4096 + k % 4096 = pbase + k
    omega
  · -- frame
    intro a ha houtr
    by_cases h : pml4Index a = i4
    · by_cases hb : pdptIndex a = i3
      · by_cases hc : pdIndex a = i2
        · by_cases hr : i1 ≤ ptIndex a ∧ ptIndex a < i1 + cnt
          · obtain ⟨hc1, hc2⟩ := base_cover vbase cnt a hvb hvlt (by omega) ha
              (by rw [h, hi4]) (by rw [hb, hi3]) (by rw [hc, hi2])
              (by rw [← hi1]; exact hr.1) (by rw [← hi1]; exact hr.2)
            have hc2' : a < vbase + cnt * 4096 := hc2
            omega
          · rw [resolve_eq_l3, hvs2l3at a h hb, resolveFrom3_table, hc, updf_same]
            simp only [resolveFrom2]
            rw [hout (ptIndex a) (by omega)]
            rw [resolve_eq_l3]
            rcases hpre a h hb hc with ⟨hl, hcc⟩ | ⟨hnone, hptempty⟩
            · rw [hl, resolveFrom3_table, hc, hcc]
              rfl
            · rw [hnone, hptempty]
        · rw [resolve_eq_l3, resolve_eq_l3, hvs2l3at a h hb, resolveFrom3_table,
            updf_ne _ _ _ _ hc, hC_ne _ hc]
          rcases hl3vsi3 a h hb with ⟨hl, _⟩ | ⟨hl, hpd⟩
          · rw [hl, resolveFrom3_table]
          · rw [hl, hpd]
            simp [resolveFrom2, resolveFrom3]
      · rw [resolve_eq_l3, resolve_eq_l3, hl3T a (Or.inr hb)]
    · rw [resolve_eq_l3, resolve_eq_l3, hl3T a (Or.inl h)]

end VSpaceModel

namespace VSpaceModel

lemma PDPTEntry_isPage_exists (e : PDPTEntry) (h : e.isPage = true) :
    ∃ r x, e = PDPTEntry.page r x := by
  cases e <;> simp_all [PDPTEntry.isPage]

lemma PDEntry_isPage_exists (e : PDEntry) (h : e.isPage = true) :
    ∃ r x, e = PDEntry.page r x := by
  cases e <;> simp_all [PDEntry.isPage]

lemma giga_step (i4 i3 m c : Nat) (h4 : i4 < 512) (h3 : i3 < 512) (hc : c ≤ m)
    (hlt : PML4_SLOT_SIZE * i4 + HUGE_PAGE_SIZE * i3 + m * HUGE_PAGE_SIZE <
      281474976710656) :
    pml4Index (PML4_SLOT_SIZE * i4 + HUGE_PAGE_SIZE * i3 + m * HUGE_PAGE_SIZE) ≠ i4 ∨
    i3 + c ≤ pdptIndex (PML4_SLOT_SIZE * i4 + HUGE_PAGE_SIZE * i3 + m * HUGE_PAGE_SIZE) := by
  simp only [pml4Index, pdptIndex,
    show PML4_SLOT_SIZE = 549755813888 from rfl,
    show HUGE_PAGE_SIZE = 1073741824 from rfl] at hlt ⊢
  omega

set_option maxHeartbeats 1000000 in
lemma mapGenericF_master : ∀ (fuel : Nat) (vs : VSpace) (vbase pbase psize : Nat)
    (rights : MapAction) (vs' : VSpace) (res : Except AddressSpaceError Unit) (d : Nat),
    psize < fuel →
    mapGenericF fuel vs vbase pbase psize rights = Option.some (vs', res, d) →
    (0 < psize → d ≤ psize / BASE_PAGE_SIZE) ∧
    (vspaceGoodB vs = true → vspaceGoodB vs' = true) ∧
    (∀ k, k < psize →
      (l3entryAt vs (vbase + k)).isPage = false ∧
      (l2entryAt vs (vbase + k)).isPage = false) ∧
    (∀ a r x, l3entryAt vs a = PDPTEntry.page r x → l3entryAt vs' a = PDPTEntry.page r x) ∧
    (∀ a r x, l2entryAt vs a = PDEntry.page r x → l2entryAt vs' a = PDEntry.page r x) ∧
    (vbase % HUGE_PAGE_SIZE = 0 → pbase % HUGE_PAGE_SIZE = 0 → HUGE_PAGE_SIZE ≤ psize →
      vbase + psize ≤ 281474976710656 →
      (∀ j, j < psize / HUGE_PAGE_SIZE →
        l3entryAt vs (vbase + j * HUGE_PAGE_SIZE) = PDPTEntry.nonPresent) →
      (∀ j, j < psize / HUGE_PAGE_SIZE →
        l3entryAt vs' (vbase + j * HUGE_PAGE_SIZE) =
          PDPTEntry.page rights.toRights (pbase + j * HUGE_PAGE_SIZE))) ∧
    (0 < psize → vbase + psize ≤ 281474976710656 →
      (∀ k, k % BASE_PAGE_SIZE = 0 → k < psize →
        resolve_addr vs (vbase + k) = Option.none) →
      (∀ k, k < psize → resolve_addr vs' (vbase + k) = Option.some (pbase + k)) ∧
      (∀ a, a < 281474976710656 → (a < vbase ∨ vbase + psize ≤ a) →
        resolve_addr vs' a = resolve_addr vs a)) := by
  intro fuel
  induction fuel with
  | zero =>
    intro vs vbase pbase psize rights vs' res d hfuel hrun
    omega
  | succ fuel ih =>
    intro vs vbase pbase psize rights vs' res d hfuel hrun
    simp only [mapGenericF, map_generic_body] at hrun
    by_cases hc1 : pbase % BASE_PAGE_SIZE ≠ 0
    · rw [if_pos hc1] at hrun
      exact Option.noConfusion hrun
    rw [if_neg hc1] at hrun
    by_cases hc2 : psize % BASE_PAGE_SIZE ≠ 0
    · rw [if_pos hc2] at hrun
      exact Option.noConfusion hrun
    rw [if_neg hc2] at hrun
    by_cases hc3 : vbase % BASE_PAGE_SIZE ≠ 0
    · rw [if_pos hc3] at hrun
      exact Option.noConfusion hrun
    rw [if_neg hc3] at hrun
    by_cases hc4 : rights = MapAction.none
    · rw [if_pos hc4] at hrun
      exact Option.noConfusion hrun
    rw [if_neg hc4] at hrun
    have hpb : pbase % 4096 = 0 := not_ne_iff.mp hc1
    have hps : psize % 4096 = 0 := not_ne_iff.mp hc2
    have hvb : vbase % 4096 = 0 := not_ne_iff.mp hc3
    generalize hAdef : (if (vs.pml4 (pml4Index vbase)).isPresent = true then vs.pml4
      else updf vs.pml4 (pml4Index vbase)
        (PML4Entry.table intermediateRights (fun _ => PDPTEntry.nonPresent))) = pml4A at hrun
    cases h4 : pml4A (pml4Index vbase) with
    | nonPresent =>
      simp only [h4] at hrun
      exact Option.noConfusion hrun
    | table r4 pdpt =>
      simp only [h4] at hrun
      by_cases hHuge : (pdpt (pdptIndex vbase)).isPresent = false ∧
          vbase = PML4_SLOT_SIZE * pml4Index vbase + HUGE_PAGE_SIZE * pdptIndex vbase ∧
          pbase % HUGE_PAGE_SIZE = 0 ∧ HUGE_PAGE_SIZE ≤ psize
      · rw [if_pos hHuge] at hrun
        cases hloop : hugeLoop pdpt pbase rights.toRights psize (pdptIndex vbase) with
        | none =>
          simp only [hloop] at hrun
          exact Option.noConfusion hrun
        | some pr =>
          obtain ⟨pdpt2, mapped⟩ := pr
          simp only [hloop] at hrun
          obtain ⟨hm, hC2, hC3, hC4, hC5, hC6, hC7, hT, hG⟩ :=
            huge_phase vs ⟨updf pml4A (pml4Index vbase) (PML4Entry.table r4 pdpt2)⟩
              vbase pbase psize rights.toRights r4 pml4A pdpt pdpt2 mapped
              hAdef.symm h4 hHuge.2.1 hloop rfl
          have hmlit : mapped =
              min (psize / 1073741824) (512 - pdptIndex vbase) * 1073741824 := hm
          have hi3lt : pdptIndex vbase < 512 := pdptIndex_lt vbase
          have hszlit : 1073741824 ≤ psize := hHuge.2.2.2
          have hmpos : 1073741824 ≤ mapped ∧ mapped % 4096 = 0 ∧
              mapped ≤ psize := by omega
          by_cases hrec : mapped < psize
          · rw [if_pos hrec] at hrun
            cases hrc : mapGenericF fuel
                ⟨updf pml4A (pml4Index vbase) (PML4Entry.table r4 pdpt2)⟩
                (vbase + mapped) (pbase + mapped) (psize - mapped) rights with
            | none =>
              simp only [hrc] at hrun
              exact Option.noConfusion hrun
            | some t3 =>
              obtain ⟨vs3, res3, d3⟩ := t3
              simp only [hrc, Option.some.injEq, Prod.mk.injEq] at hrun
              obtain ⟨hv, hres, hd⟩ := hrun
              subst hv
              subst hres
              subst hd
              obtain ⟨ihd, ihG, ihNP, ihP3, ihP2, ihHuge, ihRT⟩ :=
                ih _ _ _ _ _ _ _ _ (by omega) hrc
              refine ⟨?_, ?_, ?_, ?_, ?_, ?_, ?_⟩
              · intro hpos
                have hd3 : d3 ≤ (psize - mapped) / 4096 := ihd (by omega)
                show d3 + 1 ≤ psize / 4096
                omega
              · intro hg
                exact ihG (hG hg)
              · intro k hk
                by_cases hkm : k < mapped
                · exact hC4 k hkm
                · have hnp := ihNP (k - mapped) (by omega)
                  have haddr : vbase + mapped + (k - mapped) = vbase + k := by omega
                  rw [haddr] at hnp
                  constructor
                  · cases hbool : (l3entryAt vs (vbase + k)).isPage with
                    | false => rfl
                    | true =>
                      obtain ⟨r, x, he⟩ := PDPTEntry_isPage_exists _ hbool
                      have h1 := hnp.1
                      rw [hC5 _ _ _ he] at h1
                      exact absurd h1 (by simp)
                  · cases hbool : (l2entryAt vs (vbase + k)).isPage with
                    | false => rfl
                    | true =>
                      obtain ⟨r, x, he⟩ := PDEntry_isPage_exists _ hbool
                      have h1 := hnp.2
                      rw [hC6 _ _ _ he] at h1
                      exact absurd h1 (by simp)
              · intro a r x he
                exact ihP3 _ _ _ (hC5 _ _ _ he)
              · intro a r x he
                exact ihP2 _ _ _ (hC6 _ _ _ he)
              · -- huge slots
                intro hv4 hp4 hsz hbound hslots j hj
                have hv4l : vbase % 1073741824 = 0 := hv4
                have hp4l : pbase % 1073741824 = 0 := hp4
                have hjlit : j < psize / 1073741824 := hj
                by_cases hjm : j * 1073741824 < mapped
                · exact ihP3 _ _ _ (hC7 j hjm)
                · have hrem : 1073741824 ≤ psize - mapped := by omega
                  have hi4lt : pml4Index vbase < 512 := pml4Index_lt vbase
                  have hcm : mapped / 1073741824 * 1073741824 = mapped := by omega
                  have hslots2 : ∀ j', j' < (psize - mapped) / HUGE_PAGE_SIZE →
                      l3entryAt
                        (⟨updf pml4A (pml4Index vbase) (PML4Entry.table r4 pdpt2)⟩ : VSpace)
                        (vbase + mapped + j' * HUGE_PAGE_SIZE) = PDPTEntry.nonPresent := by
                    intro j' hj'
                    have hj'lit : j' < (psize - mapped) / 1073741824 := hj'
                    have haddr : vbase + mapped + j' * HUGE_PAGE_SIZE =
                        PML4_SLOT_SIZE * pml4Index vbase + HUGE_PAGE_SIZE * pdptIndex vbase +
                          (mapped / 1073741824 + j') * HUGE_PAGE_SIZE := by
                      rw [← hHuge.2.1]
                      show vbase + mapped + j' * 1073741824 =
                        vbase + (mapped / 1073741824 + j') * 1073741824
                      omega
                    have hstep := giga_step (pml4Index vbase) (pdptIndex vbase)
                      (mapped / 1073741824 + j') (mapped / 1073741824) hi4lt hi3lt
                      (Nat.le_add_right _ _)
                      (by
                        rw [← haddr]
                        show vbase + mapped + j' * 1073741824 < 281474976710656
                        omega)
                    have hside : pml4Index (vbase + mapped + j' * HUGE_PAGE_SIZE) ≠
                        pml4Index vbase ∨
                        pdptIndex (vbase + mapped + j' * HUGE_PAGE_SIZE) < pdptIndex vbase ∨
                        pdptIndex vbase + mapped / HUGE_PAGE_SIZE ≤
                          pdptIndex (vbase + mapped + j' * HUGE_PAGE_SIZE) := by
                      rw [haddr]
                      rcases hstep with hs | hs
                      · exact Or.inl hs
                      · exact Or.inr (Or.inr hs)
                    rw [hT _ hside]
                    have haddr2 : vbase + mapped + j' * HUGE_PAGE_SIZE =
                        vbase + (mapped / 1073741824 + j') * HUGE_PAGE_SIZE := by
                      show vbase + mapped + j' * 1073741824 =
                        vbase + (mapped / 1073741824 + j') * 1073741824
                      omega
                    rw [haddr2]
                    exact hslots (mapped / 1073741824 + j')
                      (by show mapped / 1073741824 + j' < psize / 1073741824; omega)
                  have ihH := ihHuge
                    (by show (vbase + mapped) % 1073741824 = 0; omega)
                    (by show (pbase + mapped) % 1073741824 = 0; omega)
                    hrem (by omega) hslots2
                  have hlast := ihH (j - mapped / 1073741824)
                    (by show j - mapped / 1073741824 < (psize - mapped) / 1073741824; omega)
                  have ha1 : vbase + mapped + (j - mapped / 1073741824) * HUGE_PAGE_SIZE =
                      vbase + j * HUGE_PAGE_SIZE := by
                    show vbase + mapped + (j - mapped / 1073741824) * 1073741824 =
                      vbase + j * 1073741824
                    omega
                  have ha2 : pbase + mapped + (j - mapped / 1073741824) * HUGE_PAGE_SIZE =
                      pbase + j * HUGE_PAGE_SIZE := by
                    show pbase + mapped + (j - mapped / 1073741824) * 1073741824 =
                      pbase + j * 1073741824
                    omega
                  rw [ha1, ha2] at hlast
                  exact hlast
              · -- round trip
                intro hpos0 hbound hpre
                have hpre2 : ∀ k, k % BASE_PAGE_SIZE = 0 → k < psize - mapped →
                    resolve_addr
                      (⟨updf pml4A (pml4Index vbase) (PML4Entry.table r4 pdpt2)⟩ : VSpace)
                      (vbase + mapped + k) = Option.none := by
                  intro k hka hkl
                  have hkal : k % 4096 = 0 := hka
                  have heq := hC3 (vbase + mapped + k) (by omega) (by omega)
                  rw [heq]
                  have hprev := hpre (mapped + k) (by show (mapped + k) % 4096 = 0; omega)
                    (by omega)
                  have haddr : vbase + (mapped + k) = vbase + mapped + k := by omega
                  rw [haddr] at hprev
                  exact hprev
                obtain ⟨ihin, ihfr⟩ := ihRT (by omega) (by omega) hpre2
                refine ⟨?_, ?_⟩
                · intro k hk
                  by_cases hkm : k < mapped
                  · have h2 := ihfr (vbase + k) (by omega) (by omega)
                    rw [h2]
                    exact hC2 k hkm
                  · have := ihin (k - mapped) (by omega)
                    have ha1 : vbase + mapped + (k - mapped) = vbase + k := by omega
                    have ha2 : pbase + mapped + (k - mapped) = pbase + k := by omega
                    rw [ha1, ha2] at this
                    exact this
                · intro a ha houtr
                  have h2 := ihfr a ha (by omega)
                  have h3 := hC3 a ha (by omega)
                  rw [h2, h3]
          · rw [if_neg hrec] at hrun
            simp only [Option.some.injEq, Prod.mk.injEq] at hrun
            obtain ⟨hv, hres, hd⟩ := hrun
            subst hv
            subst hres
            subst hd
            have hmeq : mapped = psize := by omega
            refine ⟨?_, hG, ?_, hC5, hC6, ?_, ?_⟩
            · intro hpos
              show 1 ≤ psize / 4096
              omega
            · intro k hk
              exact hC4 k (by omega)
            · intro hv4 hp4 hsz hbound hslots j hj
              have hjlit : j < psize / 1073741824 := hj
              exact hC7 j (by show j * 1073741824 < mapped; omega)
            · intro hpos0 hbound hpre
              refine ⟨?_, ?_⟩
              · intro k hk
                exact hC2 k (by omega)
              · intro a ha houtr
                exact hC3 a ha (by omega)
      · rw [if_neg hHuge] at hrun
        generalize hBdef : (if (pdpt (pdptIndex vbase)).isPresent = true then pdpt
          else updf pdpt (pdptIndex vbase)
            (PDPTEntry.table intermediateRights (fun _ => PDEntry.nonPresent))) = pdptA at hrun
        cases h3 : pdptA (pdptIndex vbase) with
        | nonPresent =>
          simp only [h3] at hrun
          exact Option.noConfusion hrun
        | page r3 x3 =>
          simp only [h3] at hrun
          exact Option.noConfusion hrun
        | table r3 pd =>
          simp only [h3] at hrun
          by_cases hLarge : (pd (pdIndex vbase)).isPresent = false ∧
              vbase = PML4_SLOT_SIZE * pml4Index vbase + HUGE_PAGE_SIZE * pdptIndex vbase +
                LARGE_PAGE_SIZE * pdIndex vbase ∧
              pbase % LARGE_PAGE_SIZE = 0 ∧ LARGE_PAGE_SIZE ≤ psize
          · rw [if_pos hLarge] at hrun
            cases hloop : largeLoop pd pbase rights.toRights psize (pdIndex vbase) with
            | none =>
              simp only [hloop] at hrun
              exact Option.noConfusion hrun
            | some pr =>
              obtain ⟨pd2, mapped⟩ := pr
              simp only [hloop] at hrun
              obtain ⟨hm, hC2, hC3, hC4, hC5, hC6, hG⟩ :=
                large_phase vs ⟨updf pml4A (pml4Index vbase) (PML4Entry.table r4
                    (updf pdptA (pdptIndex vbase) (PDPTEntry.table r3 pd2)))⟩
                  vbase pbase psize rights.toRights r4 r3 pml4A pdpt pdptA pd pd2 mapped
                  hAdef.symm h4 hBdef.symm h3 hLarge.2.1 hloop rfl
              have hmlit : mapped =
                  min (psize / 2097152) (512 - pdIndex vbase) * 2097152 := hm
              have hi2lt : pdIndex vbase < 512 := pdIndex_lt vbase
              have hszlit : 2097152 ≤ psize := hLarge.2.2.2
              have hmpos : 2097152 ≤ mapped ∧ mapped % 4096 = 0 ∧
                  mapped ≤ psize := by omega
              by_cases hrec : mapped < psize
              · rw [if_pos hrec] at hrun
                cases hrc : mapGenericF fuel
                    ⟨updf pml4A (pml4Index vbase) (PML4Entry.table r4
                      (updf pdptA (pdptIndex vbase) (PDPTEntry.table r3 pd2)))⟩
                    (vbase + mapped) (pbase + mapped) (psize - mapped) rights with
                | none =>
                  simp only [hrc] at hrun
                  exact Option.noConfusion hrun
                | some t3 =>
                  obtain ⟨vs3, res3, d3⟩ := t3
                  simp only [hrc, Option.some.injEq, Prod.mk.injEq] at hrun
                  obtain ⟨hv, hres, hd⟩ := hrun
                  subst hv
                  subst hres
                  subst hd
                  obtain ⟨ihd, ihG, ihNP, ihP3, ihP2, ihHuge, ihRT⟩ :=
                    ih _ _ _ _ _ _ _ _ (by omega) hrc
                  refine ⟨?_, ?_, ?_, ?_, ?_, ?_, ?_⟩
                  · intro hpos
                    have hd3 : d3 ≤ (psize - mapped) / 4096 := ihd (by omega)
                    show d3 + 1 ≤ psize / 4096
                    omega
                  · intro hg
                    exact ihG (hG hg)
                  · intro k hk
                    by_cases hkm : k < mapped
                    · exact hC4 k hkm
                    · have hnp := ihNP (k - mapped) (by omega)
                      have haddr : vbase + mapped + (k - mapped) = vbase + k := by omega
                      rw [haddr] at hnp
                      constructor
                      · cases hbool : (l3entryAt vs (vbase + k)).isPage with
                        | false => rfl
                        | true =>
                          obtain ⟨r, x, he⟩ := PDPTEntry_isPage_exists _ hbool
                          have h1 := hnp.1
                          rw [hC5 _ _ _ he] at h1
                          exact absurd h1 (by simp)
                      · cases hbool : (l2entryAt vs (vbase + k)).isPage with
                        | false => rfl
                        | true =>
                          obtain ⟨r, x, he⟩ := PDEntry_isPage_exists _ hbool
                          have h1 := hnp.2
                          rw [hC6 _ _ _ he] at h1
                          exact absurd h1 (by simp)
                  · intro a r x he
                    exact ihP3 _ _ _ (hC5 _ _ _ he)
                  · intro a r x he
                    exact ihP2 _ _ _ (hC6 _ _ _ he)
                  · intro hv4 hp4 hsz hbound hslots j hj
                    exact absurd (huge_guard_forced vs vbase pbase psize r4 pml4A pdpt
                      hAdef.symm h4 hv4 hp4 hsz hbound hslots) hHuge
                  · intro hpos0 hbound hpre
                    have hpre2 : ∀ k, k % BASE_PAGE_SIZE = 0 → k < psize - mapped →
                        resolve_addr
                          (⟨updf pml4A (pml4Index vbase) (PML4Entry.table r4
                            (updf pdptA (pdptIndex vbase)
                              (PDPTEntry.table r3 pd2)))⟩ : VSpace)
                          (vbase + mapped + k) = Option.none := by
                      intro k hka hkl
                      have hkal : k % 4096 = 0 := hka
                      have heq := hC3 (vbase + mapped + k) (by omega) (by omega)
                      rw [heq]
                      have hprev := hpre (mapped + k)
                        (by show (mapped + k) % 4096 = 0; omega) (by omega)
                      have haddr : vbase + (mapped + k) = vbase + mapped + k := by omega
                      rw [haddr] at hprev
                      exact hprev
                    obtain ⟨ihin, ihfr⟩ := ihRT (by omega) (by omega) hpre2
                    refine ⟨?_, ?_⟩
                    · intro k hk
                      by_cases hkm : k < mapped
                      · have h2 := ihfr (vbase + k) (by omega) (by omega)
                        rw [h2]
                        exact hC2 k hkm
                      · have hlast := ihin (k - mapped) (by omega)
                        have ha1 : vbase + mapped + (k - mapped) = vbase + k := by omega
                        have ha2 : pbase + mapped + (k - mapped) = pbase + k := by omega
                        rw [ha1, ha2] at hlast
                        exact hlast
                    · intro a ha houtr
                      have h2 := ihfr a ha (by omega)
                      have h3 := hC3 a ha (by omega)
                      rw [h2, h3]
              · rw [if_neg hrec] at hrun
                simp only [Option.some.injEq, Prod.mk.injEq] at hrun
                obtain ⟨hv, hres, hd⟩ := hrun
                subst hv
                subst hres
                subst hd
                have hmeq : mapped = psize := by omega
                refine ⟨?_, hG, ?_, hC5, hC6, ?_, ?_⟩
                · intro hpos
                  show 1 ≤ psize / 4096
                  omega
                · intro k hk
                  exact hC4 k (by omega)
                · intro hv4 hp4 hsz hbound hslots j hj
                  exact absurd (huge_guard_forced vs vbase pbase psize r4 pml4A pdpt
                    hAdef.symm h4 hv4 hp4 hsz hbound hslots) hHuge
                · intro hpos0 hbound hpre
                  refine ⟨?_, ?_⟩
                  · intro k hk
                    exact hC2 k (by omega)
                  · intro a ha houtr
                    exact hC3 a ha (by omega)
          · rw [if_neg hLarge] at hrun
            generalize hCdef : (if (pd (pdIndex vbase)).isPresent = true then pd
              else updf pd (pdIndex vbase)
                (PDEntry.table intermediateRights (fun _ => PTEntry.nonPresent))) = pdA at hrun
            cases h2 : pdA (pdIndex vbase) with
            | nonPresent =>
              simp only [h2] at hrun
              exact Option.noConfusion hrun
            | page r2 x2 =>
              simp only [h2] at hrun
              exact Option.noConfusion hrun
            | table r2 pt =>
              simp only [h2] at hrun
              rcases hpt : ptLoop pt pbase rights.toRights psize (ptIndex vbase)
                with ⟨pt2, mapped⟩
              simp only [hpt] at hrun
              obtain ⟨hm, hC4, hC5, hC6, hG⟩ :=
                pt_phase_core vs ⟨updf pml4A (pml4Index vbase) (PML4Entry.table r4
                    (updf pdptA (pdptIndex vbase) (PDPTEntry.table r3
                      (updf pdA (pdIndex vbase) (PDEntry.table r2 pt2)))))⟩
                  vbase pbase psize rights.toRights r4 r3 r2 pml4A pdpt pdptA pd pdA pt pt2
                  mapped hAdef.symm h4 hBdef.symm h3 hCdef.symm h2 hvb hps hpt rfl
              have hmlit : mapped =
                  min (psize / 4096) (512 - ptIndex vbase) * 4096 := hm
              have hi1lt : ptIndex vbase < 512 := ptIndex_lt vbase
              have hmfacts : mapped % 4096 = 0 ∧ mapped ≤ psize := by omega
              by_cases hrec : mapped < psize
              · rw [if_pos hrec] at hrun
                cases hrc : mapGenericF fuel
                    ⟨updf pml4A (pml4Index vbase) (PML4Entry.table r4
                      (updf pdptA (pdptIndex vbase) (PDPTEntry.table r3
                        (updf pdA (pdIndex vbase) (PDEntry.table r2 pt2)))))⟩
                    (vbase + mapped) (pbase + mapped) (psize - mapped) rights with
                | none =>
                  simp only [hrc] at hrun
                  exact Option.noConfusion hrun
                | some t3 =>
                  obtain ⟨vs3, res3, d3⟩ := t3
                  simp only [hrc, Option.some.injEq, Prod.mk.injEq] at hrun
                  obtain ⟨hv, hres, hd⟩ := hrun
                  subst hv
                  subst hres
                  subst hd
                  have hcnt1 : 1 ≤ min (psize / 4096) (512 - ptIndex vbase) := by
                    refine le_min ?_ ?_ <;> omega
                  have hmul : 1 * 4096 ≤ min (psize / 4096) (512 - ptIndex vbase) * 4096 :=
                    Nat.mul_le_mul_right _ hcnt1
                  have hmpos : 4096 ≤ mapped := by omega
                  obtain ⟨ihd, ihG, ihNP, ihP3, ihP2, ihHuge, ihRT⟩ :=
                    ih _ _ _ _ _ _ _ _ (by omega) hrc
                  refine ⟨?_, ?_, ?_, ?_, ?_, ?_, ?_⟩
                  · intro hpos
                    have hd3 : d3 ≤ (psize - mapped) / 4096 := ihd (by omega)
                    show d3 + 1 ≤ psize / 4096
                    omega
                  · intro hg
                    exact ihG (hG hg)
                  · intro k hk
                    by_cases hkm : k < mapped
                    · exact hC4 k hkm
                    · have hnpk := ihNP (k - mapped) (by omega)
                      have haddr : vbase + mapped + (k - mapped) = vbase + k := by omega
                      rw [haddr] at hnpk
                      constructor
                      · cases hbool : (l3entryAt vs (vbase + k)).isPage with
                        | false => rfl
                        | true =>
                          obtain ⟨r, x, he⟩ := PDPTEntry_isPage_exists _ hbool
                          have h1 := hnpk.1
                          rw [hC5 _ _ _ he] at h1
                          exact absurd h1 (by simp)
                      · cases hbool : (l2entryAt vs (vbase + k)).isPage with
                        | false => rfl
                        | true =>
                          obtain ⟨r, x, he⟩ := PDEntry_isPage_exists _ hbool
                          have h1 := hnpk.2
                          rw [hC6 _ _ _ he] at h1
                          exact absurd h1 (by simp)
                  · intro a r x he
                    exact ihP3 _ _ _ (hC5 _ _ _ he)
                  · intro a r x he
                    exact ihP2 _ _ _ (hC6 _ _ _ he)
                  · intro hv4 hp4 hsz hbound hslots j hj
                    exact absurd (huge_guard_forced vs vbase pbase psize r4 pml4A pdpt
                      hAdef.symm h4 hv4 hp4 hsz hbound hslots) hHuge
                  · intro hpos0 hbound hpre
                    have hvlt : vbase < 281474976710656 := by omega
                    have hnp := pt_slots_free vs vbase psize r4 r3 r2 pml4A pdpt pdptA
                      pd pdA pt hAdef.symm h4 hBdef.symm h3 hCdef.symm h2 hvb hpre
                    obtain ⟨hC2r, hC3r⟩ := pt_phase_resolve vs
                      ⟨updf pml4A (pml4Index vbase) (PML4Entry.table r4
                        (updf pdptA (pdptIndex vbase) (PDPTEntry.table r3
                          (updf pdA (pdIndex vbase) (PDEntry.table r2 pt2)))))⟩
                      vbase pbase psize rights.toRights r4 r3 r2 pml4A pdpt pdptA pd pdA
                      pt pt2 mapped hAdef.symm h4 hBdef.symm h3 hCdef.symm h2 hvb hps
                      hvlt hnp hpt rfl
                    have hpre2 : ∀ k, k % BASE_PAGE_SIZE = 0 → k < psize - mapped →
                        resolve_addr
                          (⟨updf pml4A (pml4Index vbase) (PML4Entry.table r4
                        (updf pdptA (pdptIndex vbase) (PDPTEntry.table r3
                          (updf pdA (pdIndex vbase) (PDEntry.table r2 pt2)))))⟩ : VSpace)
                          (vbase + mapped + k) = Option.none := by
                      intro k hka hkl
                      have hkal : k % 4096 = 0 := hka
                      have heq := hC3r (vbase + mapped + k) (by omega) (by omega)
                      rw [heq]
                      have hprev := hpre (mapped + k)
                        (by show (mapped + k) % 4096 = 0; omega) (by omega)
                      have haddr : vbase + (mapped + k) = vbase + mapped + k := by omega
                      rw [haddr] at hprev
                      exact hprev
                    obtain ⟨ihin, ihfr⟩ := ihRT (by omega) (by omega) hpre2
                    refine ⟨?_, ?_⟩
                    · intro k hk
                      by_cases hkm : k < mapped
                      · have h2x := ihfr (vbase + k) (by omega) (by omega)
                        rw [h2x]
                        exact hC2r k hkm
                      · have hlast := ihin (k - mapped) (by omega)
                        have ha1 : vbase + mapped + (k - mapped) = vbase + k := by omega
                        have ha2 : pbase + mapped + (k - mapped) = pbase + k := by omega
                        rw [ha1, ha2] at hlast
                        exact hlast
                    · intro a ha houtr
                      have h2x := ihfr a ha (by omega)
                      have h3x := hC3r a ha (by omega)
                      rw [h2x, h3x]
              · rw [if_neg hrec] at hrun
                simp only [Option.some.injEq, Prod.mk.injEq] at hrun
                obtain ⟨hv, hres, hd⟩ := hrun
                subst hv
                subst hres
                subst hd
                have hmeq : mapped = psize := by omega
                refine ⟨?_, hG, ?_, hC5, hC6, ?_, ?_⟩
                · intro hpos
                  show 1 ≤ psize / 4096
                  omega
                · intro k hk
                  exact hC4 k (by omega)
                · intro hv4 hp4 hsz hbound hslots j hj
                  exact absurd (huge_guard_forced vs vbase pbase psize r4 pml4A pdpt
                    hAdef.symm h4 hv4 hp4 hsz hbound hslots) hHuge
                · intro hpos0 hbound hpre
                  have hvlt : vbase < 281474976710656 := by omega
                  have hnp := pt_slots_free vs vbase psize r4 r3 r2 pml4A pdpt pdptA
                    pd pdA pt hAdef.symm h4 hBdef.symm h3 hCdef.symm h2 hvb hpre
                  obtain ⟨hC2r, hC3r⟩ := pt_phase_resolve vs
                    ⟨updf pml4A (pml4Index vbase) (PML4Entry.table r4
                      (updf pdptA (pdptIndex vbase) (PDPTEntry.table r3
                        (updf pdA (pdIndex vbase) (PDEntry.table r2 pt2)))))⟩
                    vbase pbase psize rights.toRights r4 r3 r2 pml4A pdpt pdptA pd pdA
                    pt pt2 mapped hAdef.symm h4 hBdef.symm h3 hCdef.symm h2 hvb hps
                    hvlt hnp hpt rfl
                  refine ⟨?_, ?_⟩
                  · intro k hk
                    exact hC2r k (by omega)
                  · intro a ha houtr
                    exact hC3r a ha (by omega)


/-! ### Helper lemmas for the frame-level wrappers -/

/-- `map_frame` can only return `Ok(())`: the inner `map_generic` result
value is discarded. -/
lemma map_frame_ok (vs : VSpace) (base : Nat) (f : Frame) (a : MapAction)
    (vs' : VSpace) (res : Except AddressSpaceError Unit)
    (hrun : map_frame vs base f a = Option.some (vs', res)) : res = Except.ok () := by
  unfold map_frame at hrun
  cases hmg : map_generic vs base f.base f.size a with
  | none =>
    rw [hmg] at hrun
    exact Option.noConfusion hrun
  | some out =>
    obtain ⟨vs2, r2, d2⟩ := out
    rw [hmg] at hrun
    have hrun2 : Option.some (vs2, Except.ok ()) = Option.some (vs', res) := hrun
    simp only [Option.some.injEq, Prod.mk.injEq] at hrun2
    exact hrun2.2.symm

/-- A successful `map_frame` preserves the intermediate-flag discipline. -/
lemma map_frame_good (vs : VSpace) (base : Nat) (f : Frame) (a : MapAction)
    (vs' : VSpace) (res : Except AddressSpaceError Unit)
    (hrun : map_frame vs base f a = Option.some (vs', res))
    (hg : vspaceGoodB vs = true) : vspaceGoodB vs' = true := by
  unfold map_frame at hrun
  cases hmg : map_generic vs base f.base f.size a with
  | none =>
    rw [hmg] at hrun
    exact Option.noConfusion hrun
  | some out =>
    obtain ⟨vs2, r2, d2⟩ := out
    rw [hmg] at hrun
    have hrun2 : Option.some (vs2, Except.ok ()) = Option.some (vs', res) := hrun
    simp only [Option.some.injEq, Prod.mk.injEq] at hrun2
    have hgood := (mapGenericF_master (f.size + 1) vs base f.base f.size a vs2 r2 d2
      (by omega) hmg).2.1 hg
    rw [← hrun2.1]
    exact hgood

/-- The frame-walking loop can only return `Ok(())`. -/
lemma map_frames_go_ok : ∀ (frames : List (Frame × MapAction)) (vs : VSpace)
    (base : Nat) (vs' : VSpace) (res : Except AddressSpaceError Unit),
    map_frames_go vs base frames = Option.some (vs', res) → res = Except.ok () := by
  intro frames
  induction frames with
  | nil =>
    intro vs base vs' res hrun
    have hrun2 : Option.some (vs, Except.ok ()) = Option.some (vs', res) := hrun
    simp only [Option.some.injEq, Prod.mk.injEq] at hrun2
    exact hrun2.2.symm
  | cons fa rest ih =>
    intro vs base vs' res hrun
    obtain ⟨f, a⟩ := fa
    simp only [map_frames_go] at hrun
    cases hmf : map_frame vs base f a with
    | none =>
      rw [hmf] at hrun
      exact Option.noConfusion hrun
    | some pr =>
      obtain ⟨vs2, res2⟩ := pr
      cases res2 with
      | ok u =>
        rw [hmf] at hrun
        exact ih vs2 (base + f.size) vs' res hrun
      | error e =>
        have := map_frame_ok vs base f a vs2 (Except.error e) hmf
        exact absurd this (by simp)

/-- The frame-walking loop preserves the intermediate-flag discipline. -/
lemma map_frames_go_good : ∀ (frames : List (Frame × MapAction)) (vs : VSpace)
    (base : Nat) (vs' : VSpace) (res : Except AddressSpaceError Unit),
    map_frames_go vs base frames = Option.some (vs', res) →
    vspaceGoodB vs = true → vspaceGoodB vs' = true := by
  intro frames
  induction frames with
  | nil =>
    intro vs base vs' res hrun hg
    have hrun2 : Option.some (vs, Except.ok ()) = Option.some (vs', res) := hrun
    simp only [Option.some.injEq, Prod.mk.injEq] at hrun2
    rw [← hrun2.1]
    exact hg
  | cons fa rest ih =>
    intro vs base vs' res hrun hg
    obtain ⟨f, a⟩ := fa
    simp only [map_frames_go] at hrun
    cases hmf : map_frame vs base f a with
    | none =>
      rw [hmf] at hrun
      exact Option.noConfusion hrun
    | some pr =>
      obtain ⟨vs2, res2⟩ := pr
      have hg2 : vspaceGoodB vs2 = true := map_frame_good vs base f a vs2 res2 hmf hg
      cases res2 with
      | ok u =>
        rw [hmf] at hrun
        exact ih vs2 (base + f.size) vs' res hrun hg2
      | error e =>
        have := map_frame_ok vs base f a vs2 (Except.error e) hmf
        exact absurd this (by simp)

/-! ### Claim theorems -/

/-- Claim C1 (amended): a successful `map_generic(v, (p, n), rights)` call whose
target range `[v, v+n)` resolved to nothing beforehand (and lies below `2^48`,
with `n > 0`) satisfies the round trip: for every offset `k < n` — in
particular every 4 KiB-aligned one — `resolve(v+k) = Some(p+k)` afterwards.
The unamended claim (without the prior-emptiness hypothesis) is refuted by
`C1_roundtrip_counterexample`. -/
theorem C1_roundtrip (vs vs' : VSpace) (vbase pbase psize : Nat) (rights : MapAction)
    (res : Except AddressSpaceError Unit) (d : Nat)
    (hpos : 0 < psize) (hbound : vbase + psize ≤ 281474976710656)
    (hfresh : ∀ k, k % BASE_PAGE_SIZE = 0 → k < psize →
      resolve_addr vs (vbase + k) = Option.none)
    (hrun : map_generic vs vbase pbase psize rights = Option.some (vs', res, d))
    (k : Nat) (hk : k % BASE_PAGE_SIZE = 0) (hklt : k < psize) :
    resolve_addr vs' (vbase + k) = Option.some (pbase + k) :=
  ((mapGenericF_master (psize + 1) vs vbase pbase psize rights vs' res d
    (by omega) hrun).2.2.2.2.2.2 hpos hbound hfresh).1 k hklt

/-- Witness for C1: mapping `p = 0x1000` at `v = 0` on a fresh address space
makes `resolve(0)` return `Some 0x1000`. -/
theorem C1_roundtrip_witness :
    resolve_addr ((map_generic VSpace.new 0 4096 4096 MapAction.readWriteKernel).getD
      (VSpace.new, Except.ok (), 0)).1 (0 + 0) = Option.some (4096 + 0) :=
  C1_roundtrip VSpace.new
    ((map_generic VSpace.new 0 4096 4096 MapAction.readWriteKernel).getD
      (VSpace.new, Except.ok (), 0)).1
    0 4096 4096 MapAction.readWriteKernel
    ((map_generic VSpace.new 0 4096 4096 MapAction.readWriteKernel).getD
      (VSpace.new, Except.ok (), 0)).2.1
    ((map_generic VSpace.new 0 4096 4096 MapAction.readWriteKernel).getD
      (VSpace.new, Except.ok (), 0)).2.2
    (by decide) (by decide) (fun k hk hklt => rfl) rfl 0 (by decide) (by decide)

/-- Counterexample to the literal Claim C1: remapping an already-mapped page
succeeds (returns `Ok(())`) but the old translation survives, so
`resolve(v+0)` is `Some 0x1000`, not `Some(p+0) = Some 0x2000`. -/
theorem C1_roundtrip_counterexample :
    (match map_generic VSpace.new 0 4096 4096 MapAction.readWriteKernel with
     | Option.some (vs1, _, _) =>
       (map_generic vs1 0 8192 4096 MapAction.readWriteKernel).map
         (fun out => (out.2.1, resolve_addr out.1 0))
     | Option.none => Option.none) =
      Option.some (Except.ok (), Option.some 4096) ∧
    (4096 : Nat) ≠ 8192 :=
  ⟨by decide, by decide⟩

/-- Claim C2 (amended): `map_generic` enforces by assertion (modelled as
`Option.none`) that `pbase`, `psize` and `vbase` are multiples of 4 KiB and
that `rights ≠ MapAction.none` — but, contrary to the claim, there is no
assertion that the size is strictly positive (`C2_preconditions_counterexample`). -/
theorem C2_preconditions (vs : VSpace) (vbase pbase psize : Nat) (rights : MapAction)
    (hviol : pbase % BASE_PAGE_SIZE ≠ 0 ∨ psize % BASE_PAGE_SIZE ≠ 0 ∨
      vbase % BASE_PAGE_SIZE ≠ 0 ∨ rights = MapAction.none) :
    map_generic vs vbase pbase psize rights = Option.none := by
  show map_generic_body (mapGenericF psize) vs vbase pbase psize rights = Option.none
  unfold map_generic_body
  by_cases h1 : pbase % BASE_PAGE_SIZE ≠ 0
  · rw [if_pos h1]
  · rw [if_neg h1]
    by_cases h2 : psize % BASE_PAGE_SIZE ≠ 0
    · rw [if_pos h2]
    · rw [if_neg h2]
      by_cases h3 : vbase % BASE_PAGE_SIZE ≠ 0
      · rw [if_pos h3]
      · rw [if_neg h3]
        have h4 : rights = MapAction.none := by tauto
        rw [if_pos h4]

/-- Witness for C2: a misaligned `pbase = 1` fails the assertion. -/
theorem C2_preconditions_witness :
    map_generic VSpace.new 0 1 4096 MapAction.readWriteKernel = Option.none :=
  C2_preconditions VSpace.new 0 1 4096 MapAction.readWriteKernel (Or.inl (by decide))

/-- Counterexample to the literal Claim C2: a zero-size call passes every
assertion and returns `Ok(())` — the claimed `size > 0` assertion does not
exist in the source. -/
theorem C2_preconditions_counterexample :
    (map_generic VSpace.new 0 4096 0 MapAction.readWriteKernel).map
      (fun out => out.2.1) = Option.some (Except.ok ()) := by
  decide

/-- Claim C3 (amended): with the additional hypothesis that the covering
giga-aligned level-3 slots are non-present beforehand (and the range lies
below `2^48`), a call with `p`, `v` 1 GiB-aligned and `n ≥ 2^30` installs the
first `⌊n / 2^30⌋` slots as 1 GiB leaves carrying the rights projection.
Without that hypothesis the claim fails (`C3_hugepages_counterexample`). -/
theorem C3_hugepages (vs vs' : VSpace) (vbase pbase psize : Nat) (rights : MapAction)
    (res : Except AddressSpaceError Unit) (d : Nat)
    (hv : vbase % HUGE_PAGE_SIZE = 0) (hp : pbase % HUGE_PAGE_SIZE = 0)
    (hsz : HUGE_PAGE_SIZE ≤ psize) (hbound : vbase + psize ≤ 281474976710656)
    (hslots : ∀ j, j < psize / HUGE_PAGE_SIZE →
      l3entryAt vs (vbase + j * HUGE_PAGE_SIZE) = PDPTEntry.nonPresent)
    (hrun : map_generic vs vbase pbase psize rights = Option.some (vs', res, d)) :
    ∀ j, j < psize / HUGE_PAGE_SIZE →
      l3entryAt vs' (vbase + j * HUGE_PAGE_SIZE) =
        PDPTEntry.page rights.toRights (pbase + j * HUGE_PAGE_SIZE) :=
  (mapGenericF_master (psize + 1) vs vbase pbase psize rights vs' res d
    (by omega) hrun).2.2.2.2.2.1 hv hp hsz hbound hslots

/-- Witness for C3: mapping 1 GiB at `v = p = 0` on a fresh address space
installs slot 0 of the level-3 table as a 1 GiB leaf. -/
theorem C3_hugepages_witness :
    l3entryAt ((map_generic VSpace.new 0 0 1073741824 MapAction.readWriteKernel).getD
      (VSpace.new, Except.ok (), 0)).1 (0 + 0 * HUGE_PAGE_SIZE) =
      PDPTEntry.page MapAction.readWriteKernel.toRights (0 + 0 * HUGE_PAGE_SIZE) :=
  C3_hugepages VSpace.new
    ((map_generic VSpace.new 0 0 1073741824 MapAction.readWriteKernel).getD
      (VSpace.new, Except.ok (), 0)).1
    0 0 1073741824 MapAction.readWriteKernel
    ((map_generic VSpace.new 0 0 1073741824 MapAction.readWriteKernel).getD
      (VSpace.new, Except.ok (), 0)).2.1
    ((map_generic VSpace.new 0 0 1073741824 MapAction.readWriteKernel).getD
      (VSpace.new, Except.ok (), 0)).2.2
    (by decide) (by decide) (by decide) (by decide)
    (fun j hj => rfl) rfl 0 (by decide)

set_option maxRecDepth 10000 in
/-- Counterexample to the literal Claim C3: after a prior 4 KiB mapping in the
same giga slot, a perfectly aligned 1 GiB-sized call still succeeds but
installs no 1 GiB leaf in the covering slot (the pre-existing level-3 table
diverts it to the 2 MiB and 4 KiB paths). -/
theorem C3_hugepages_counterexample :
    (match map_generic VSpace.new 1073741824 4096 4096 MapAction.readWriteKernel with
     | Option.some (vs1, _, _) =>
       (map_generic vs1 1073741824 0 1073741824 MapAction.readWriteKernel).map
         (fun out => (out.2.1, (l3entryAt out.1 1073741824).isPage))
     | Option.none => Option.none) = Option.some (Except.ok (), false) := by
  decide

/-- Claim C4: `resolve_addr` is exactly the pointer-free walk: absent as soon
as the path entry is non-present, a 1 GiB leaf adds `addr mod 2^30`, a 2 MiB
leaf adds `addr mod 2^21`, and otherwise the level-1 leaf adds
`addr mod 2^12`; on a fresh address space `resolve(0x1234)` is absent. -/
theorem C4_resolve_walk (vs : VSpace) (a : Nat) :
    resolve_addr vs a =
      (match l3entryAt vs a with
       | PDPTEntry.nonPresent => Option.none
       | PDPTEntry.page _ x => Option.some (x + a % 1073741824)
       | PDPTEntry.table _ _ =>
         match l2entryAt vs a with
         | PDEntry.nonPresent => Option.none
         | PDEntry.page _ x => Option.some (x + a % 2097152)
         | PDEntry.table _ _ =>
           match l1entryAt vs a with
           | PTEntry.nonPresent => Option.none
           | PTEntry.page _ x => Option.some (x + a % 4096)) ∧
    resolve_addr VSpace.new 4660 = Option.none := by
  constructor
  · rw [resolve_eq_l3]
    cases h3 : l3entryAt vs a with
    | nonPresent => rfl
    | page r x => rfl
    | table r pd =>
      rw [resolveFrom3_table, ← l2entryAt_of_table h3]
      cases h2 : l2entryAt vs a with
      | nonPresent => rfl
      | page r2 x => rfl
      | table r2 pt =>
        have hl1 : l1entryAt vs a = pt (ptIndex a) := by
          unfold l1entryAt
          rw [h2]
        rw [show resolveFrom2 (PDEntry.table r2 pt) a =
          (match pt (ptIndex a) with
           | PTEntry.nonPresent => Option.none
           | PTEntry.page _ x => Option.some (x + basePageOffset a)) from rfl, ← hl1]
        cases h1 : l1entryAt vs a with
        | nonPresent => rfl
        | page r1 x => rfl
  · rfl

/-- Claim C5: the 4 KiB loop leaves an already-present level-1 slot exactly as
it was, yet advances its byte counter over it as if the page had been
installed; end to end, remapping an already-mapped page still returns
`Ok(())` and the original leaf survives. -/
theorem C5_silent_skip (pt : Nat → PTEntry) (pbase : Nat) (r : Rights)
    (psize idx j : Nat) (hidx : idx ≤ 512) (hps : psize % BASE_PAGE_SIZE = 0)
    (hpresent : (pt j).isPresent = true) :
    (ptLoop pt pbase r psize idx).1 j = pt j ∧
    (ptLoop pt pbase r psize idx).2 =
      min (psize / BASE_PAGE_SIZE) (512 - idx) * BASE_PAGE_SIZE ∧
    (match map_generic VSpace.new 0 4096 4096 MapAction.readWriteKernel with
     | Option.some (vs1, _, _) =>
       (map_generic vs1 0 8192 4096 MapAction.readWriteKernel).map
         (fun out => (out.2.1, l1entryAt out.1 0))
     | Option.none => Option.none) =
      Option.some (Except.ok (), PTEntry.page MapAction.readWriteKernel.toRights 4096) :=
  ⟨ptLoop_preserve pt pbase r psize idx j hpresent,
   ptLoop_mapped pt pbase r psize idx hidx hps, by decide⟩

/-- Witness for C5 at a table whose slot 0 holds a present leaf. -/
theorem C5_silent_skip_witness :
    (ptLoop (updf (fun _ => PTEntry.nonPresent) 0 (PTEntry.page intermediateRights 12288))
      4096 intermediateRights 8192 0).1 0 =
      updf (fun _ => PTEntry.nonPresent) 0 (PTEntry.page intermediateRights 12288) 0 ∧
    (ptLoop (updf (fun _ => PTEntry.nonPresent) 0 (PTEntry.page intermediateRights 12288))
      4096 intermediateRights 8192 0).2 =
      min (8192 / BASE_PAGE_SIZE) (512 - 0) * BASE_PAGE_SIZE ∧
    (match map_generic VSpace.new 0 4096 4096 MapAction.readWriteKernel with
     | Option.some (vs1, _, _) =>
       (map_generic vs1 0 8192 4096 MapAction.readWriteKernel).map
         (fun out => (out.2.1, l1entryAt out.1 0))
     | Option.none => Option.none) =
      Option.some (Except.ok (), PTEntry.page MapAction.readWriteKernel.toRights 4096) :=
  C5_silent_skip (updf (fun _ => PTEntry.nonPresent) 0 (PTEntry.page intermediateRights 12288))
    4096 intermediateRights 8192 0 0 (by decide) (by decide) (by decide)

/-- Claim C6: a present 1 GiB or 2 MiB leaf on the path of any address covered
by the requested range makes `map_generic` panic (`Option.none`), never
overwrite the leaf and never return normally. -/
theorem C6_leaf_conflict (vs : VSpace) (vbase pbase psize : Nat) (rights : MapAction)
    (k : Nat) (hk : k < psize)
    (hleaf : (l3entryAt vs (vbase + k)).isPage = true ∨
      (l2entryAt vs (vbase + k)).isPage = true) :
    map_generic vs vbase pbase psize rights = Option.none := by
  cases hrun : map_generic vs vbase pbase psize rights with
  | none => rfl
  | some out =>
    obtain ⟨vs', res, d⟩ := out
    have h := (mapGenericF_master (psize + 1) vs vbase pbase psize rights vs' res d
      (by omega) hrun).2.2.1 k hk
    rcases hleaf with hl | hl
    · rw [h.1] at hl
      exact absurd hl (by decide)
    · rw [h.2] at hl
      exact absurd hl (by decide)

/-- Witness for C6: after a 1 GiB mapping at 0, a 4 KiB map into the same
giga slot panics. -/
theorem C6_leaf_conflict_witness :
    map_generic ((map_generic VSpace.new 0 0 1073741824 MapAction.readWriteKernel).getD
      (VSpace.new, Except.ok (), 0)).1 0 0 4096 MapAction.readWriteKernel =
      Option.none :=
  C6_leaf_conflict _ 0 0 4096 MapAction.readWriteKernel 0 (by decide)
    (Or.inl (by decide))

/-- Claim C7: a fresh address space satisfies the intermediate-flag discipline
(every table-pointer entry carries exactly `P|RW|US`), and every public map
operation — `map_generic`, `map_frame`, `map_frames` — preserves it, whatever
`MapAction` the caller passes. -/
theorem C7_intermediate_flags :
    vspaceGoodB VSpace.new = true ∧
    (∀ vs vbase pbase psize rights vs' res d,
      map_generic vs vbase pbase psize rights = Option.some (vs', res, d) →
      vspaceGoodB vs = true → vspaceGoodB vs' = true) ∧
    (∀ vs base f a vs' res, map_frame vs base f a = Option.some (vs', res) →
      vspaceGoodB vs = true → vspaceGoodB vs' = true) ∧
    (∀ vs base frames vs' res, map_frames vs base frames = Option.some (vs', res) →
      vspaceGoodB vs = true → vspaceGoodB vs' = true) := by
  refine ⟨vspaceGoodB_new, ?_, map_frame_good, ?_⟩
  · intro vs vbase pbase psize rights vs' res d hrun hg
    exact (mapGenericF_master (psize + 1) vs vbase pbase psize rights vs' res d
      (by omega) hrun).2.1 hg
  · intro vs base frames vs' res hrun hg
    cases frames with
    | nil => exact Option.noConfusion hrun
    | cons fa rest =>
      obtain ⟨f0, a0⟩ := fa
      have hrun2 : (if f0.size = 0 then Option.none
          else if base % f0.size ≠ 0 then Option.none
          else map_frames_go vs base ((f0, a0) :: rest)) = Option.some (vs', res) := hrun
      by_cases h0 : f0.size = 0
      · rw [if_pos h0] at hrun2
        exact Option.noConfusion hrun2
      · rw [if_neg h0] at hrun2
        by_cases h1 : base % f0.size ≠ 0
        · rw [if_pos h1] at hrun2
          exact Option.noConfusion hrun2
        · rw [if_neg h1] at hrun2
          exact map_frames_go_good ((f0, a0) :: rest) vs base vs' res hrun2 hg

set_option maxRecDepth 10000 in
/-- Witness for C7: the discipline holds after one concrete `map_generic`. -/
theorem C7_intermediate_flags_witness :
    vspaceGoodB ((map_generic VSpace.new 0 4096 4096 MapAction.readWriteKernel).getD
      (VSpace.new, Except.ok (), 0)).1 = true :=
  C7_intermediate_flags.2.1 VSpace.new 0 4096 4096 MapAction.readWriteKernel
    ((map_generic VSpace.new 0 4096 4096 MapAction.readWriteKernel).getD
      (VSpace.new, Except.ok (), 0)).1
    ((map_generic VSpace.new 0 4096 4096 MapAction.readWriteKernel).getD
      (VSpace.new, Except.ok (), 0)).2.1
    ((map_generic VSpace.new 0 4096 4096 MapAction.readWriteKernel).getD
      (VSpace.new, Except.ok (), 0)).2.2
    rfl (by decide)

/-- Claim C8: `map_frames` panics on an empty list and on a base misaligned to
the first frame's size, and otherwise maps the frames in order, each
immediately after the previous one; concretely, three 4 KiB frames placed at
`0x100000` resolve in list order. -/
theorem C8_map_frames_ordered :
    (∀ vs base, map_frames vs base [] = Option.none) ∧
    (∀ vs base f a rest, base % f.size ≠ 0 →
      map_frames vs base ((f, a) :: rest) = Option.none) ∧
    (map_frames VSpace.new 1048576
        [(⟨20480, 4096⟩, MapAction.readWriteKernel),
         (⟨28672, 4096⟩, MapAction.readWriteKernel),
         (⟨12288, 4096⟩, MapAction.readWriteKernel)]).map
      (fun out => (resolve_addr out.1 1048576, resolve_addr out.1 1052672,
        resolve_addr out.1 1056768)) =
      Option.some (Option.some 20480, Option.some 28672, Option.some 12288) := by
  refine ⟨fun vs base => rfl, ?_, by decide⟩
  intro vs base f a rest hmis
  show (if f.size = 0 then Option.none
    else if base % f.size ≠ 0 then Option.none
    else map_frames_go vs base ((f, a) :: rest)) = Option.none
  by_cases h0 : f.size = 0
  · rw [if_pos h0]
  · rw [if_neg h0, if_pos hmis]

/-- Witness for C8: a base not aligned to the first frame's size panics. -/
theorem C8_map_frames_ordered_witness :
    map_frames VSpace.new 4096 [(⟨0, 8192⟩, MapAction.readWriteKernel)] =
      Option.none :=
  C8_map_frames_ordered.2.1 VSpace.new 4096 ⟨0, 8192⟩ MapAction.readWriteKernel []
    (by decide)

/-- Claim C9 (amended): a `map_generic` call that returns has its recursion
chain bounded by the number of 4 KiB pages in the request, `psize / 2^12`
(for `psize > 0`); the literal bound 3 claimed by the spec is refuted by
`C9_depth_counterexample`, which reaches depth 4. -/
theorem C9_depth_bound (vs vs' : VSpace) (vbase pbase psize : Nat) (rights : MapAction)
    (res : Except AddressSpaceError Unit) (d : Nat) (hpos : 0 < psize)
    (hrun : map_generic vs vbase pbase psize rights = Option.some (vs', res, d)) :
    d ≤ psize / BASE_PAGE_SIZE :=
  (mapGenericF_master (psize + 1) vs vbase pbase psize rights vs' res d
    (by omega) hrun).1 hpos

/-- Witness for C9: a one-page map has recursion-chain depth at most one. -/
theorem C9_depth_bound_witness :
    ((map_generic VSpace.new 0 4096 4096 MapAction.readWriteKernel).getD
      (VSpace.new, Except.ok (), 0)).2.2 ≤ 4096 / BASE_PAGE_SIZE :=
  C9_depth_bound VSpace.new
    ((map_generic VSpace.new 0 4096 4096 MapAction.readWriteKernel).getD
      (VSpace.new, Except.ok (), 0)).1
    0 4096 4096 MapAction.readWriteKernel
    ((map_generic VSpace.new 0 4096 4096 MapAction.readWriteKernel).getD
      (VSpace.new, Except.ok (), 0)).2.1
    ((map_generic VSpace.new 0 4096 4096 MapAction.readWriteKernel).getD
      (VSpace.new, Except.ok (), 0)).2.2
    (by decide) rfl

/-- Counterexample to the literal Claim C9: the aligned call
`map_generic(0x7FC0000000, (0, 0x80201000))` returns with a recursion chain of
4 activations — one 1 GiB burst ending at the table edge, another 1 GiB
burst, a 2 MiB burst and a 4 KiB burst — exceeding the claimed bound 3. -/
theorem C9_depth_counterexample :
    (map_generic VSpace.new 548682072064 0 2149584896 MapAction.readWriteKernel).map
      (fun out => out.2.2) = Option.some 4 ∧ ¬(4 ≤ 3) :=
  ⟨by decide, by decide⟩

/-- Claim C10: whenever `map_frame` returns at all, the returned `Result` is
`Ok(())` (the inner `map_generic` result is discarded), and the same holds
for `map_frames`. -/
theorem C10_map_frame_ok (vs : VSpace) (base : Nat) (f : Frame) (a : MapAction)
    (vs' : VSpace) (res : Except AddressSpaceError Unit) :
    (map_frame vs base f a = Option.some (vs', res) → res = Except.ok ()) ∧
    (∀ vs2 base2 frames vs2' res2,
      map_frames vs2 base2 frames = Option.some (vs2', res2) →
      res2 = Except.ok ()) := by
  refine ⟨map_frame_ok vs base f a vs' res, ?_⟩
  intro vs2 base2 frames vs2' res2 hrun
  cases frames with
  | nil => exact Option.noConfusion hrun
  | cons fa rest =>
    obtain ⟨f0, a0⟩ := fa
    have hrun2 : (if f0.size = 0 then Option.none
        else if base2 % f0.size ≠ 0 then Option.none
        else map_frames_go vs2 base2 ((f0, a0) :: rest)) = Option.some (vs2', res2) := hrun
    by_cases h0 : f0.size = 0
    · rw [if_pos h0] at hrun2
      exact Option.noConfusion hrun2
    · rw [if_neg h0] at hrun2
      by_cases h1 : base2 % f0.size ≠ 0
      · rw [if_pos h1] at hrun2
        exact Option.noConfusion hrun2
      · rw [if_neg h1] at hrun2
        exact map_frames_go_ok ((f0, a0) :: rest) vs2 base2 vs2' res2 hrun2

/-- Witness for C10 on a concrete frame map. -/
theorem C10_map_frame_ok_witness :
    ((map_frame VSpace.new 0 ⟨4096, 4096⟩ MapAction.readWriteKernel).getD
      (VSpace.new, Except.error AddressSpaceError.invalidArgument)).2 =
      Except.ok () :=
  (C10_map_frame_ok VSpace.new 0 ⟨4096, 4096⟩ MapAction.readWriteKernel
    ((map_frame VSpace.new 0 ⟨4096, 4096⟩ MapAction.readWriteKernel).getD
      (VSpace.new, Except.error AddressSpaceError.invalidArgument)).1
    ((map_frame VSpace.new 0 ⟨4096, 4096⟩ MapAction.readWriteKernel).getD
      (VSpace.new, Except.error AddressSpaceError.invalidArgument)).2).1 rfl


end VSpaceModel
